import Mathlib

/-
  Shallow embedding of the chunked voxel-world core of the Craft repository
  (src/craft_world.py, src/craft_math.py, src/craft_renderer.py).

  Python dictionaries are embedded as association lists with dict semantics
  (lookup finds the entry for a key, assignment overwrites in place or appends,
  deletion removes the key).  Python floats are embedded as rationals; the two
  trigonometric library functions used by terrain generation (math.sin,
  math.cos) are passed as parameters, constrained where a claim needs their
  analytic properties.  The `random` module (seeded Mersenne Twister) is
  embedded as an oracle supplying, per world column, the outcomes the source
  draws there: the plant roll (random.random() < 0.1), the plant choice
  (random.choice of three plant types), the tree roll (random.random() < 0.02)
  and the trunk height (random.randint(4, 7)).
-/

namespace Craft

/-- Dict lookup: first entry with the given key (keys are unique in states
reachable from the source's dict operations, so "first" is "the"). -/
def dget {K V : Type} [DecidableEq K] : List (K × V) → K → Option V
  | [], _ => none
  | (k', v) :: rest, k => if k = k' then some v else dget rest k

/-- Dict assignment `d[k] = v`: overwrite in place, append if absent. -/
def dset {K V : Type} [DecidableEq K] : List (K × V) → K → V → List (K × V)
  | [], k, v => [(k, v)]
  | (k', v') :: rest, k, v =>
    if k = k' then (k, v) :: rest else (k', v') :: dset rest k v

/-- Dict deletion `del d[k]`: removes the key (no entry with key `k` remains). -/
def ddel {K V : Type} [DecidableEq K] : List (K × V) → K → List (K × V)
  | [], _ => []
  | (k', v') :: rest, k =>
    if k' = k then ddel rest k else (k', v') :: ddel rest k

/-- Python set `s.add(k)`. -/
def sadd {K : Type} [DecidableEq K] (s : List K) (k : K) : List K :=
  if k ∈ s then s else s ++ [k]

/-- Python set `s.discard(k)`. -/
def sdiscard {K : Type} [DecidableEq K] (s : List K) (k : K) : List K :=
  s.filter fun k' => k' ≠ k

/-- Python `range(a, b)` over integers. -/
def intRange (a b : ℤ) : List ℤ :=
  (List.range (b - a).toNat).map fun (i : ℕ) => a + (i : ℤ)

/-- Python `int()` applied to a number: truncation toward zero. -/
def truncQ (q : ℚ) : ℤ := if q < 0 then ⌈q⌉ else ⌊q⌋

/-- Modelled from the spec: `craft_config.py` is not under `src/`.  Section 6
fixes `CHUNK_SIZE = 32` and block id 0 = empty/air; the remaining material ids
are small positive integers whose concrete values the spec leaves open, so they
are chosen here as arbitrary distinct nonzero values (no claim depends on the
particular numbers). -/
def CHUNK_SIZE : ℤ := 32

/-- Modelled from the spec: the reserved empty/air block id (0). -/
def EMPTY : ℤ := 0

/-- Modelled from the spec: surface material id (grass). -/
def GRASS : ℤ := 1

/-- Modelled from the spec: stone material id. -/
def STONE : ℤ := 3

/-- Modelled from the spec: wood material id. -/
def WOOD : ℤ := 5

/-- Modelled from the spec: dirt material id. -/
def DIRT : ℤ := 7

/-- Modelled from the spec: glass material id (a transparent material). -/
def GLASS : ℤ := 10

/-- Modelled from the spec: leaves material id. -/
def LEAVES : ℤ := 15

/-- Modelled from the spec: tall-grass plant id. -/
def TALL_GRASS : ℤ := 17

/-- Modelled from the spec: yellow-flower plant id. -/
def YELLOW_FLOWER : ℤ := 18

/-- Modelled from the spec: red-flower plant id. -/
def RED_FLOWER : ℤ := 19

/-- Modelled from the spec: the fixed transparent-type set (includes empty). -/
def TRANSPARENT_BLOCKS : List ℤ := [EMPTY, GLASS, LEAVES]

/-- Modelled from the spec: the fixed plant-type set. -/
def PLANT_BLOCKS : List ℤ := [TALL_GRASS, YELLOW_FLOWER, RED_FLOWER]

/-- `chunked` from craft_math.py: `int(math.floor(x / 32))`. -/
def chunked (x : ℚ) : ℤ := ⌊x / 32⌋

/-- `Block` from craft_world.py. -/
structure Block where
  type : ℤ
  x : ℤ
  y : ℤ
  z : ℤ
deriving DecidableEq

/-- `Block.is_empty`. -/
def Block.is_empty (b : Block) : Bool := b.type = EMPTY

/-- `Block.is_transparent`. -/
def Block.is_transparent (b : Block) : Bool := b.type ∈ TRANSPARENT_BLOCKS

/-- `Block.is_plant`. -/
def Block.is_plant (b : Block) : Bool := b.type ∈ PLANT_BLOCKS

/-- `Block.is_solid`. -/
def Block.is_solid (b : Block) : Bool := !b.is_empty && !b.is_transparent

/-- `Chunk` from craft_world.py.  The bounding-box attributes of the source are
set once in `__init__` from `p`, `q` and never mutated; they are embedded as
the derived functions `Chunk.min_x` etc. below. -/
structure Chunk where
  p : ℤ
  q : ℤ
  blocks : List ((ℤ × ℤ × ℤ) × Block)
  generated : Bool
  dirty : Bool
  faces : ℤ
deriving DecidableEq

/-- `Chunk.__init__`. -/
def Chunk.init (p q : ℤ) : Chunk :=
  { p := p, q := q, blocks := [], generated := false, dirty := true, faces := 0 }

/-- Bounding box: `self.min_x = p * CHUNK_SIZE`. -/
def Chunk.min_x (c : Chunk) : ℤ := c.p * CHUNK_SIZE

/-- Bounding box: `self.max_x = (p + 1) * CHUNK_SIZE - 1`. -/
def Chunk.max_x (c : Chunk) : ℤ := (c.p + 1) * CHUNK_SIZE - 1

/-- Bounding box: `self.min_z = q * CHUNK_SIZE`. -/
def Chunk.min_z (c : Chunk) : ℤ := c.q * CHUNK_SIZE

/-- Bounding box: `self.max_z = (q + 1) * CHUNK_SIZE - 1`. -/
def Chunk.max_z (c : Chunk) : ℤ := (c.q + 1) * CHUNK_SIZE - 1

/-- `Chunk.get_block`: the stored block, else a synthesized empty block. -/
def Chunk.get_block (c : Chunk) (x y z : ℤ) : Block :=
  (dget c.blocks (x, y, z)).getD { type := EMPTY, x := x, y := y, z := z }

/-- `Chunk.set_block`: empty type deletes the key (no-op when absent), any
other type inserts/overwrites; `dirty` is set unconditionally. -/
def Chunk.set_block (c : Chunk) (x y z block_type : ℤ) : Chunk :=
  if block_type = EMPTY then
    { c with blocks := ddel c.blocks (x, y, z), dirty := true }
  else
    { c with blocks := dset c.blocks (x, y, z) (Block.mk block_type x y z), dirty := true }

/-- `Chunk.contains_point`. -/
def Chunk.contains_point (c : Chunk) (x z : ℤ) : Bool :=
  decide (c.min_x ≤ x) && decide (x ≤ c.max_x) &&
  decide (c.min_z ≤ z) && decide (z ≤ c.max_z)

/-- `Vector3` from craft_math.py (only the fields the world core reads). -/
structure Vec3 where
  x : ℚ
  y : ℚ
  z : ℚ
deriving DecidableEq

/-- Oracle for the seeded `random` module: the outcomes the source draws at
each world column (x, z) during generation.  `plantRoll` is
`random.random() < 0.1`, `plantPick` the `random.choice` among the three plant
types, `treeRoll` is `random.random() < 0.02`, and `4 + treePick` is
`random.randint(4, 7)`. -/
structure Rng where
  plantRoll : ℤ → ℤ → Bool
  plantPick : ℤ → ℤ → Fin 3
  treeRoll : ℤ → ℤ → Bool
  treePick : ℤ → ℤ → Fin 4

/-- `random.choice([TALL_GRASS, YELLOW_FLOWER, RED_FLOWER])`. -/
def plantChoice (i : Fin 3) : ℤ :=
  match i with
  | 0 => TALL_GRASS
  | 1 => YELLOW_FLOWER
  | 2 => RED_FLOWER

/-- `World` from craft_world.py.  `seed` is the (resolved) integer seed; the
three terrain parameters are the attributes set in `__init__`. -/
structure World where
  seed : ℤ
  chunks : List ((ℤ × ℤ) × Chunk)
  loaded_chunks : List (ℤ × ℤ)
  terrain_scale : ℚ
  terrain_height : ℤ
  terrain_base : ℤ
deriving DecidableEq

/-- `World.__init__` with an explicit seed (`seed=None` draws a random one;
every claim below supplies a seed). -/
def World.init (seed : ℤ) : World :=
  { seed := seed, chunks := [], loaded_chunks := [],
    terrain_scale := 1 / 50, terrain_height := 16, terrain_base := 8 }

/-- `World._get_terrain_height`: the trigonometric noise combination, with
`math.sin` and `math.cos` passed in as `sinf`, `cosf` (floats embedded as
rationals, `int()` as truncation toward zero). -/
def World.get_terrain_height (sinf cosf : ℚ → ℚ) (w : World) (x z : ℤ) : ℤ :=
  let noise_value : ℚ :=
    sinf (x * w.terrain_scale) * cosf (z * w.terrain_scale) +
    sinf (x * w.terrain_scale * 2) * cosf (z * w.terrain_scale * 2) * (1 / 2)
  let height := truncQ ((w.terrain_base : ℚ) + noise_value * (w.terrain_height : ℚ))
  max 1 (min height 64)

/-- The material chosen for height `height` at column depth `y` inside
`World._generate_chunk`'s vertical fill loop. -/
def columnBlockType (height y : ℤ) : ℤ :=
  if y = 0 then STONE
  else if y < height - 3 then STONE
  else if y < height then DIRT
  else GRASS

/-- The `range(-2, 3)` loop bounds of `World._generate_tree`. -/
def span2 : List ℤ := [-2, -1, 0, 1, 2]

/-- The (dx, dy, dz) iteration order of `World._generate_tree`'s leaf loops. -/
def treeTriples : List (ℤ × ℤ × ℤ) :=
  (span2.map fun dx => (span2.map fun dy => span2.map fun dz => (dx, dy, dz)).flatten).flatten

/-- `World._generate_tree` with the trunk height (`random.randint(4, 7)`)
passed in by the caller. -/
def generate_tree (tree_height : ℤ) (chunk : Chunk) (x y z : ℤ) : Chunk :=
  let c :=
    (List.range tree_height.toNat).foldl
      (fun c i => c.set_block x (y + (i : ℤ)) z WOOD) chunk
  treeTriples.foldl
    (fun c d =>
      if d.1 * d.1 + d.2.1 * d.2.1 + d.2.2 * d.2.2 ≤ 4 then
        let leaf_y := y + tree_height + d.2.1
        if leaf_y > y + tree_height - 2 then
          c.set_block (x + d.1) leaf_y (z + d.2.2) LEAVES
        else c
      else c)
    c

/-- The per-column body of `World._generate_chunk`: vertical terrain fill,
then the probabilistic plant, then the probabilistic tree. -/
def generate_column (sinf cosf : ℚ → ℚ) (w : World) (rng : Rng)
    (chunk : Chunk) (x z : ℤ) : Chunk :=
  let height := w.get_terrain_height sinf cosf x z
  let c :=
    (List.range (min (height + 1) 256).toNat).foldl
      (fun c y => c.set_block x (y : ℤ) z (columnBlockType height (y : ℤ))) chunk
  let c :=
    if height > 0 ∧ rng.plantRoll x z = true then
      c.set_block x (height + 1) z (plantChoice (rng.plantPick x z))
    else c
  if height > 5 ∧ rng.treeRoll x z = true then
    generate_tree (4 + ((rng.treePick x z : ℕ) : ℤ)) c x (height + 1) z
  else c

/-- The chunk built by `World._generate_chunk` before insertion: terrain for
every column of the footprint, then `generated = True`. -/
def generate_chunk_blocks (sinf cosf : ℚ → ℚ) (w : World) (rng : Rng)
    (p q : ℤ) : Chunk :=
  let chunk := Chunk.init p q
  let chunk :=
    (intRange chunk.min_x (chunk.max_x + 1)).foldl
      (fun c x =>
        (intRange c.min_z (c.max_z + 1)).foldl
          (fun c z => generate_column sinf cosf w rng c x z) c)
      chunk
  { chunk with generated := true }

/-- `World._generate_chunk`: build the chunk and record it in both the chunk
mapping and the loaded set. -/
def World.generate_chunk (sinf cosf : ℚ → ℚ) (rng : Rng) (w : World)
    (p q : ℤ) : World :=
  let chunk := generate_chunk_blocks sinf cosf w rng p q
  { w with
    chunks := dset w.chunks (p, q) chunk,
    loaded_chunks := sadd w.loaded_chunks (p, q) }

/-- `World._load_chunks_around`, parameterized by `CREATE_CHUNK_RADIUS`
(craft_config.py is not under `src/`; §6 leaves its value open). -/
def World.load_chunks_around (createR : ℤ) (sinf cosf : ℚ → ℚ) (rng : Rng)
    (w : World) (center_p center_q : ℤ) : World :=
  (intRange (-createR) (createR + 1)).foldl
    (fun w dp =>
      (intRange (-createR) (createR + 1)).foldl
        (fun w dq =>
          if (dget w.chunks (center_p + dp, center_q + dq)).isSome then w
          else w.generate_chunk sinf cosf rng (center_p + dp) (center_q + dq))
        w)
    w

/-- `World._unload_distant_chunks`, parameterized by `DELETE_CHUNK_RADIUS`. -/
def World.unload_distant_chunks (deleteR : ℤ) (w : World)
    (center_p center_q : ℤ) : World :=
  let to_remove :=
    (w.chunks.map Prod.fst).filter fun k =>
      decide (max (k.1 - center_p).natAbs (k.2 - center_q).natAbs > deleteR)
  { w with
    chunks := to_remove.foldl ddel w.chunks,
    loaded_chunks := to_remove.foldl sdiscard w.loaded_chunks }

/-- `World.update`: load around the player's chunk, then evict distant
chunks. -/
def World.update (createR deleteR : ℤ) (sinf cosf : ℚ → ℚ) (rng : Rng)
    (w : World) (player_position : Vec3) : World :=
  let player_chunk_p := chunked player_position.x
  let player_chunk_q := chunked player_position.z
  let w := w.load_chunks_around createR sinf cosf rng player_chunk_p player_chunk_q
  w.unload_distant_chunks deleteR player_chunk_p player_chunk_q

/-- `World.get_chunk`. -/
def World.get_chunk (w : World) (p q : ℤ) : Option Chunk :=
  dget w.chunks (p, q)

/-- `World.get_chunk_for_position`. -/
def World.get_chunk_for_position (w : World) (x z : ℤ) : Option Chunk :=
  w.get_chunk (chunked (x : ℚ)) (chunked (z : ℚ))

/-- `World.get_block`: route to the owning chunk, else a synthesized empty
block. -/
def World.get_block (w : World) (x y z : ℤ) : Block :=
  match w.get_chunk_for_position x z with
  | some chunk => chunk.get_block x y z
  | none => { type := EMPTY, x := x, y := y, z := z }

/-- `World.set_block`: route to the owning chunk; silently dropped when the
chunk is not loaded. -/
def World.set_block (w : World) (x y z block_type : ℤ) : World :=
  match w.get_chunk_for_position x z with
  | some chunk =>
    let key := (chunked (x : ℚ), chunked (z : ℚ))
    { w with chunks := dset w.chunks key (chunk.set_block x y z block_type) }
  | none => w

/-- The face-direction table of `Renderer._get_visible_faces`. -/
def directions : List (String × ℤ × ℤ × ℤ) :=
  [("front", 0, 0, 1), ("back", 0, 0, -1), ("right", 1, 0, 0),
   ("left", -1, 0, 0), ("top", 0, 1, 0), ("bottom", 0, -1, 0)]

/-- `Renderer._get_visible_faces`: a face is emitted iff the neighbor is empty,
or transparent of a different type. -/
def get_visible_faces (chunk : Chunk) (x y z : ℤ) (block : Block) : List String :=
  (directions.filter fun d =>
    let neighbor := chunk.get_block (x + d.2.1) (y + d.2.2.1) (z + d.2.2.2)
    neighbor.is_empty || (neighbor.is_transparent && neighbor.type ≠ block.type)).map
    Prod.fst

/-- `Renderer._get_face_vertices`: 6 vertices of 5 floats each per face. -/
def get_face_vertices (x y z : ℤ) (face : String) (block_type : ℤ) : List ℚ :=
  let tex_size : ℚ := 1 / 16
  let tex_x : ℚ := ((block_type % 16 : ℤ) : ℚ) * tex_size
  let tex_y : ℚ := ((block_type / 16 : ℤ) : ℚ) * tex_size
  let xq : ℚ := (x : ℚ)
  let yq : ℚ := (y : ℚ)
  let zq : ℚ := (z : ℚ)
  if face = "front" then
    [xq, yq, zq + 1, tex_x, tex_y,
     xq + 1, yq, zq + 1, tex_x + tex_size, tex_y,
     xq + 1, yq + 1, zq + 1, tex_x + tex_size, tex_y + tex_size,
     xq, yq, zq + 1, tex_x, tex_y,
     xq + 1, yq + 1, zq + 1, tex_x + tex_size, tex_y + tex_size,
     xq, yq + 1, zq + 1, tex_x, tex_y + tex_size]
  else if face = "back" then
    [xq + 1, yq, zq, tex_x, tex_y,
     xq, yq, zq, tex_x + tex_size, tex_y,
     xq, yq + 1, zq, tex_x + tex_size, tex_y + tex_size,
     xq + 1, yq, zq, tex_x, tex_y,
     xq, yq + 1, zq, tex_x + tex_size, tex_y + tex_size,
     xq + 1, yq + 1, zq, tex_x, tex_y + tex_size]
  else if face = "right" then
    [xq + 1, yq, zq + 1, tex_x, tex_y,
     xq + 1, yq, zq, tex_x + tex_size, tex_y,
     xq + 1, yq + 1, zq, tex_x + tex_size, tex_y + tex_size,
     xq + 1, yq, zq + 1, tex_x, tex_y,
     xq + 1, yq + 1, zq, tex_x + tex_size, tex_y + tex_size,
     xq + 1, yq + 1, zq + 1, tex_x, tex_y + tex_size]
  else if face = "left" then
    [xq, yq, zq, tex_x, tex_y,
     xq, yq, zq + 1, tex_x + tex_size, tex_y,
     xq, yq + 1, zq + 1, tex_x + tex_size, tex_y + tex_size,
     xq, yq, zq, tex_x, tex_y,
     xq, yq + 1, zq + 1, tex_x + tex_size, tex_y + tex_size,
     xq, yq + 1, zq, tex_x, tex_y + tex_size]
  else if face = "top" then
    [xq, yq + 1, zq + 1, tex_x, tex_y,
     xq + 1, yq + 1, zq + 1, tex_x + tex_size, tex_y,
     xq + 1, yq + 1, zq, tex_x + tex_size, tex_y + tex_size,
     xq, yq + 1, zq + 1, tex_x, tex_y,
     xq + 1, yq + 1, zq, tex_x + tex_size, tex_y + tex_size,
     xq, yq + 1, zq, tex_x, tex_y + tex_size]
  else if face = "bottom" then
    [xq, yq, zq, tex_x, tex_y,
     xq + 1, yq, zq, tex_x + tex_size, tex_y,
     xq + 1, yq, zq + 1, tex_x + tex_size, tex_y + tex_size,
     xq, yq, zq, tex_x, tex_y,
     xq + 1, yq, zq + 1, tex_x + tex_size, tex_y + tex_size,
     xq, yq, zq + 1, tex_x, tex_y + tex_size]
  else []

/-- `Renderer._build_chunk_mesh`: the flat vertex list accumulated over every
stored block's visible faces. -/
def build_chunk_mesh (chunk : Chunk) : List ℚ :=
  chunk.blocks.foldl
    (fun vertices kv =>
      if kv.2.is_empty then vertices
      else
        (get_visible_faces chunk kv.1.1 kv.1.2.1 kv.1.2.2 kv.2).foldl
          (fun vs face => vs ++ get_face_vertices kv.1.1 kv.1.2.1 kv.1.2.2 face kv.2.type)
          vertices)
    []

theorem dget_dset {K V : Type} [DecidableEq K] (m : List (K × V)) (k k' : K) (v : V) :
    dget (dset m k v) k' = if k' = k then some v else dget m k' := by
  induction m with
  | nil => simp [dset, dget]
  | cons hd tl ih =>
    obtain ⟨k₀, v₀⟩ := hd
    simp only [dset]
    by_cases hk : k = k₀
    · subst hk
      simp only [if_pos rfl, dget]
      by_cases hk' : k' = k <;> simp [hk']
    · rw [if_neg hk]
      simp only [dget, ih]
      split_ifs <;> simp_all

theorem dget_ddel {K V : Type} [DecidableEq K] (m : List (K × V)) (k k' : K) :
    dget (ddel m k) k' = if k' = k then none else dget m k' := by
  induction m with
  | nil => simp [dget, ddel]
  | cons hd tl ih =>
    obtain ⟨k₀, v₀⟩ := hd
    simp only [ddel]
    by_cases h0 : k₀ = k
    · subst h0
      simp only [if_pos rfl, ih, dget]
      split_ifs <;> simp_all
    · rw [if_neg h0]
      simp only [dget, ih]
      split_ifs <;> simp_all

theorem ddel_eq_self {K V : Type} [DecidableEq K] {m : List (K × V)} {k : K}
    (h : ∀ kv ∈ m, kv.1 ≠ k) : ddel m k = m := by
  induction m with
  | nil => rfl
  | cons hd tl ih =>
    obtain ⟨k₀, v₀⟩ := hd
    simp only [ddel]
    rw [if_neg (h (k₀, v₀) (List.mem_cons_self _ _)),
      ih fun kv hkv => h kv (List.mem_cons_of_mem _ hkv)]

theorem dget_eq_none_iff {K V : Type} [DecidableEq K] (m : List (K × V)) (k : K) :
    dget m k = none ↔ ∀ kv ∈ m, kv.1 ≠ k := by
  induction m with
  | nil => simp [dget]
  | cons hd tl ih =>
    obtain ⟨k₀, v₀⟩ := hd
    simp only [dget, List.mem_cons]
    by_cases h : k = k₀
    · subst h
      simp only [if_pos rfl]
      constructor
      · intro h'
        cases h'
      · intro hall
        exact absurd rfl (hall (k, v₀) (Or.inl rfl))
    · rw [if_neg h, ih]
      constructor
      · intro hall kv hkv
        rcases hkv with rfl | hkv
        · exact fun hc => h hc.symm
        · exact hall kv hkv
      · intro hall kv hkv
        exact hall kv (Or.inr hkv)

theorem dget_mem {K V : Type} [DecidableEq K] {m : List (K × V)} {k : K} {v : V}
    (h : dget m k = some v) : (k, v) ∈ m := by
  induction m with
  | nil => simp [dget] at h
  | cons hd tl ih =>
    obtain ⟨k₀, v₀⟩ := hd
    simp only [dget] at h
    by_cases hk : k = k₀
    · rw [if_pos hk] at h
      injection h with h
      subst hk
      subst h
      exact List.mem_cons_self _ _
    · rw [if_neg hk] at h
      exact List.mem_cons_of_mem _ (ih h)

theorem mem_dset {K V : Type} [DecidableEq K] {m : List (K × V)} {k : K} {v : V}
    {a : K × V} (h : a ∈ dset m k v) : a = (k, v) ∨ a ∈ m := by
  induction m with
  | nil => simpa [dset] using h
  | cons hd tl ih =>
    obtain ⟨k₀, v₀⟩ := hd
    simp only [dset] at h
    by_cases hk : k = k₀
    · rw [if_pos hk] at h
      rcases List.mem_cons.mp h with rfl | hmem
      · exact Or.inl rfl
      · exact Or.inr (List.mem_cons_of_mem _ hmem)
    · rw [if_neg hk] at h
      rcases List.mem_cons.mp h with rfl | hmem
      · exact Or.inr (List.mem_cons_self _ _)
      · rcases ih hmem with h' | h'
        · exact Or.inl h'
        · exact Or.inr (List.mem_cons_of_mem _ h')

theorem mem_ddel {K V : Type} [DecidableEq K] {m : List (K × V)} {k : K}
    {a : K × V} (h : a ∈ ddel m k) : a ∈ m := by
  induction m with
  | nil => simp [ddel] at h
  | cons hd tl ih =>
    obtain ⟨k₀, v₀⟩ := hd
    simp only [ddel] at h
    by_cases hk : k₀ = k
    · rw [if_pos hk] at h
      exact List.mem_cons_of_mem _ (ih h)
    · rw [if_neg hk] at h
      rcases List.mem_cons.mp h with rfl | hmem
      · exact List.mem_cons_self _ _
      · exact List.mem_cons_of_mem _ (ih hmem)

theorem foldl_pres {α β : Type} (Q : β → Prop) (f : β → α → β) (l : List α)
    (h : ∀ b a, a ∈ l → Q b → Q (f b a)) (b : β) (hb : Q b) : Q (l.foldl f b) := by
  induction l generalizing b with
  | nil => exact hb
  | cons hd tl ih =>
    exact ih (fun b a ha hq => h b a (List.mem_cons_of_mem _ ha) hq) (f b hd)
      (h b hd (List.mem_cons_self _ _) hb)

theorem foldl_attain {α β : Type} (Q : β → Prop) (f : β → α → β) (l : List α) (a : α)
    (ha : a ∈ l) (hatt : ∀ b, Q (f b a))
    (hpres : ∀ b x, x ∈ l → Q b → Q (f b x)) (b : β) : Q (l.foldl f b) := by
  induction l generalizing b with
  | nil => cases ha
  | cons hd tl ih =>
    rcases List.mem_cons.mp ha with rfl | hmem
    · exact foldl_pres Q f tl
        (fun b x hx hq => hpres b x (List.mem_cons_of_mem _ hx) hq) (f b a) (hatt b)
    · exact ih hmem (fun b x hx hq => hpres b x (List.mem_cons_of_mem _ hx) hq) (f b hd)

theorem mem_intRange {a lo hi : ℤ} : a ∈ intRange lo hi ↔ lo ≤ a ∧ a < hi := by
  unfold intRange
  rw [List.mem_map]
  constructor
  · rintro ⟨i, hir, rfl⟩
    have := List.mem_range.mp hir
    omega
  · rintro ⟨h1, h2⟩
    exact ⟨(a - lo).toNat, List.mem_range.mpr (by omega), by omega⟩

/-- C7: `Chunk.set_block` with the empty type at a coordinate that has no
stored entry leaves the block mapping unchanged and still sets `dirty`. -/
theorem claim_C7 (c : Chunk) (x y z : ℤ)
    (h : dget c.blocks (x, y, z) = none) :
    (c.set_block x y z EMPTY).blocks = c.blocks ∧
    (c.set_block x y z EMPTY).dirty = true := by
  constructor
  · simp only [Chunk.set_block, if_pos rfl]
    exact ddel_eq_self ((dget_eq_none_iff c.blocks (x, y, z)).mp h)
  · simp [Chunk.set_block]

/-- Witness for C7 at a concrete chunk and coordinate. -/
theorem claim_C7_witness :
    ((Chunk.init 0 0).set_block 1 2 3 EMPTY).blocks = (Chunk.init 0 0).blocks ∧
    ((Chunk.init 0 0).set_block 1 2 3 EMPTY).dirty = true :=
  claim_C7 (Chunk.init 0 0) 1 2 3 (by rfl)

/-- C9: terrain height is a pure function of `(x, z)` (and the math library):
two independently constructed `World` instances — with the same seed or any
seeds at all — agree at every coordinate, and repeated calls are literally the
same pure application. -/
theorem claim_C9 (sinf cosf : ℚ → ℚ) (s₁ s₂ x z : ℤ) :
    World.get_terrain_height sinf cosf (World.init s₁) x z =
    World.get_terrain_height sinf cosf (World.init s₂) x z := rfl

theorem chunked_intCast_eq_iff (x p : ℤ) :
    chunked (x : ℚ) = p ↔ p * 32 ≤ x ∧ x < (p + 1) * 32 := by
  unfold chunked
  rw [Int.floor_eq_iff]
  have h32 : (0 : ℚ) < 32 := by norm_num
  constructor
  · rintro ⟨h1, h2⟩
    constructor
    · exact_mod_cast (le_div_iff₀ h32).mp h1
    · have h3 := (div_lt_iff₀ h32).mp h2
      have h4 : (x : ℚ) < (((p + 1) * 32 : ℤ) : ℚ) := by push_cast; linarith
      exact_mod_cast h4
  · rintro ⟨h1, h2⟩
    constructor
    · rw [le_div_iff₀ h32]
      exact_mod_cast h1
    · rw [div_lt_iff₀ h32]
      have h4 : (x : ℚ) < (((p + 1) * 32 : ℤ) : ℚ) := by exact_mod_cast h2
      push_cast at h4
      linarith

theorem chunked_one_zero : chunked ((1 : ℤ) : ℚ) = 0 :=
  (chunked_intCast_eq_iff 1 0).mpr (by norm_num)

theorem chunked_three_zero : chunked ((3 : ℤ) : ℚ) = 0 :=
  (chunked_intCast_eq_iff 3 0).mpr (by norm_num)

/-- C10: the chunk routing agrees with the chunk bounding box — the chunk
constructed at `(chunked x, chunked z)` contains `(x, z)`, and a chunk at
`(p, q)` contains `(x, z)` only if `p = chunked x` and `q = chunked z`. -/
theorem claim_C10 (x z : ℤ) :
    (Chunk.init (chunked (x : ℚ)) (chunked (z : ℚ))).contains_point x z = true ∧
    (∀ p q : ℤ, (Chunk.init p q).contains_point x z = true →
      p = chunked (x : ℚ) ∧ q = chunked (z : ℚ)) := by
  have hx := (chunked_intCast_eq_iff x (chunked (x : ℚ))).mp rfl
  have hz := (chunked_intCast_eq_iff z (chunked (z : ℚ))).mp rfl
  constructor
  · simp only [Chunk.contains_point, Chunk.init, Chunk.min_x, Chunk.max_x,
      Chunk.min_z, Chunk.max_z, CHUNK_SIZE, Bool.and_eq_true, decide_eq_true_eq]
    omega
  · intro p q hpq
    simp only [Chunk.contains_point, Chunk.init, Chunk.min_x, Chunk.max_x,
      Chunk.min_z, Chunk.max_z, CHUNK_SIZE, Bool.and_eq_true, decide_eq_true_eq] at hpq
    constructor
    · exact ((chunked_intCast_eq_iff x p).mpr (by omega)).symm
    · exact ((chunked_intCast_eq_iff z q).mpr (by omega)).symm

/-- Witness for C10 at `(x, z) = (5, -7)`, owning chunk `(0, -1)`. -/
theorem claim_C10_witness :
    (Chunk.init (chunked ((5 : ℤ) : ℚ)) (chunked ((-7 : ℤ) : ℚ))).contains_point 5 (-7) = true ∧
    (0 = chunked ((5 : ℤ) : ℚ) ∧ -1 = chunked ((-7 : ℤ) : ℚ)) :=
  ⟨(claim_C10 5 (-7)).1, (claim_C10 5 (-7)).2 0 (-1) (by decide)⟩

/-- C1: `World.set_block` followed by `World.get_block` at the same coordinates
returns a block of the written type when the owning chunk is loaded; when it is
not loaded the write changes nothing and the read returns an empty block. -/
theorem claim_C1 (w : World) (x y z t : ℤ) :
    (∀ c, dget w.chunks (chunked (x : ℚ), chunked (z : ℚ)) = some c →
      ((w.set_block x y z t).get_block x y z).type = t) ∧
    (dget w.chunks (chunked (x : ℚ), chunked (z : ℚ)) = none →
      w.set_block x y z t = w ∧
      ((w.set_block x y z t).get_block x y z).type = EMPTY) := by
  constructor
  · intro c hc
    simp only [World.set_block, World.get_block, World.get_chunk_for_position,
      World.get_chunk, hc]
    simp only [dget_dset, if_pos rfl]
    by_cases ht : t = EMPTY
    · subst ht
      simp [Chunk.set_block, Chunk.get_block, dget_ddel]
    · simp [Chunk.set_block, if_neg ht, Chunk.get_block, dget_dset]
  · intro hc
    have hset : w.set_block x y z t = w := by
      simp [World.set_block, World.get_chunk_for_position, World.get_chunk, hc]
    refine ⟨hset, ?_⟩
    rw [hset]
    simp [World.get_block, World.get_chunk_for_position, World.get_chunk, hc]

/-- Witness for C1: a loaded chunk at `(0, 0)` receives the write, while on an
empty world the write is dropped and the read is empty. -/
theorem claim_C1_witness :
    ((({ World.init 0 with chunks := [((0, 0), Chunk.init 0 0)] } : World).set_block
        1 2 3 STONE).get_block 1 2 3).type = STONE ∧
    ((World.init 0).set_block 1 2 3 STONE = World.init 0 ∧
      (((World.init 0).set_block 1 2 3 STONE).get_block 1 2 3).type = EMPTY) :=
  ⟨(claim_C1 ({ World.init 0 with chunks := [((0, 0), Chunk.init 0 0)] }) 1 2 3 STONE).1
      (Chunk.init 0 0) (by rw [chunked_one_zero, chunked_three_zero]; rfl),
    (claim_C1 (World.init 0) 1 2 3 STONE).2
      (by rw [chunked_one_zero, chunked_three_zero]; rfl)⟩

/-- The C8 invariant: no stored entry of a chunk's block mapping has the empty
type (emptiness is represented only by absence of a key). -/
def noEmptyStored (c : Chunk) : Prop := ∀ kv ∈ c.blocks, kv.2.type ≠ EMPTY

/-- Chunk states reachable through the world's operations on chunk contents:
a fresh chunk, a chunk produced by `World._generate_chunk`'s builder, or any
`Chunk.set_block` applied to a reachable state. -/
inductive ChunkReach (sinf cosf : ℚ → ℚ) (rng : Rng) : Chunk → Prop where
  | fresh (p q : ℤ) : ChunkReach sinf cosf rng (Chunk.init p q)
  | generated (w : World) (p q : ℤ) :
      ChunkReach sinf cosf rng (generate_chunk_blocks sinf cosf w rng p q)
  | step (c : Chunk) (x y z t : ℤ) (h : ChunkReach sinf cosf rng c) :
      ChunkReach sinf cosf rng (c.set_block x y z t)

theorem set_block_noEmptyStored {c : Chunk} (x y z t : ℤ)
    (h : noEmptyStored c) : noEmptyStored (c.set_block x y z t) := by
  intro kv hkv
  unfold Chunk.set_block at hkv
  by_cases ht : t = EMPTY
  · rw [if_pos ht] at hkv
    exact h kv (mem_ddel hkv)
  · rw [if_neg ht] at hkv
    rcases mem_dset hkv with rfl | hmem
    · exact ht
    · exact h kv hmem

theorem generate_tree_noEmptyStored {c : Chunk} (th x y z : ℤ)
    (h : noEmptyStored c) : noEmptyStored (generate_tree th c x y z) := by
  unfold generate_tree
  apply foldl_pres noEmptyStored _ treeTriples
  · intro b d _ hb
    dsimp only
    split_ifs with h1 h2
    · exact set_block_noEmptyStored _ _ _ _ hb
    · exact hb
    · exact hb
  · apply foldl_pres noEmptyStored _ (List.range th.toNat)
    · intro b i _ hb
      exact set_block_noEmptyStored _ _ _ _ hb
    · exact h

theorem generate_column_noEmptyStored {c : Chunk} (sinf cosf : ℚ → ℚ)
    (w : World) (rng : Rng) (x z : ℤ) (h : noEmptyStored c) :
    noEmptyStored (generate_column sinf cosf w rng c x z) := by
  unfold generate_column
  dsimp only
  split_ifs with h1 h2 h3
  all_goals
    first
    | apply generate_tree_noEmptyStored
    | skip
  all_goals
    first
    | apply set_block_noEmptyStored
    | skip
  all_goals
    apply foldl_pres noEmptyStored _ _ (fun b i _ hb => set_block_noEmptyStored _ _ _ _ hb) _ h

theorem generate_chunk_blocks_noEmptyStored (sinf cosf : ℚ → ℚ)
    (w : World) (rng : Rng) (p q : ℤ) :
    noEmptyStored (generate_chunk_blocks sinf cosf w rng p q) := by
  unfold generate_chunk_blocks
  dsimp only
  have hbase : noEmptyStored (Chunk.init p q) := by
    intro kv hkv
    simp [Chunk.init] at hkv
  refine foldl_pres noEmptyStored _ _ ?_ _ hbase
  intro b a _ hb
  exact foldl_pres noEmptyStored _ _
    (fun b' a' _ hb' => generate_column_noEmptyStored sinf cosf w rng _ _ hb') _ hb

/-- C8: in every chunk state reachable through `Chunk.set_block` and the
world's chunk generation, no stored entry has the empty block type. -/
theorem claim_C8 (sinf cosf : ℚ → ℚ) (rng : Rng) (c : Chunk)
    (h : ChunkReach sinf cosf rng c) : noEmptyStored c := by
  induction h with
  | fresh p q => intro kv hkv; simp [Chunk.init] at hkv
  | generated w p q => exact generate_chunk_blocks_noEmptyStored sinf cosf w rng p q
  | step c x y z t _ ih => exact set_block_noEmptyStored x y z t ih

/-- A concrete deterministic oracle (all rolls false). -/
def rng0 : Rng :=
  { plantRoll := fun _ _ => false, plantPick := fun _ _ => 0,
    treeRoll := fun _ _ => false, treePick := fun _ _ => 0 }

/-- Witness for C8: a freshly constructed chunk after one write. -/
theorem claim_C8_witness :
    noEmptyStored ((Chunk.init 0 0).set_block 4 5 6 STONE) :=
  claim_C8 (fun _ => 0) (fun _ => 0) rng0 _
    (ChunkReach.step _ 4 5 6 STONE (ChunkReach.fresh 0 0))

theorem get_face_vertices_length (x y z t : ℤ) (face : String)
    (hface : face ∈ ["front", "back", "right", "left", "top", "bottom"]) :
    (get_face_vertices x y z face t).length = 30 := by
  fin_cases hface <;> rfl

/-- The eight cells of the 2x2x2 cube scenario of C5. -/
def cubeCells : List (ℤ × ℤ × ℤ) :=
  [(0, 0, 0), (0, 0, 1), (0, 1, 0), (0, 1, 1),
   (1, 0, 0), (1, 0, 1), (1, 1, 0), (1, 1, 1)]

/-- A chunk holding exactly the 2x2x2 cube of material `t`. -/
def cubeChunk (t : ℤ) : Chunk :=
  cubeCells.foldl (fun c pos => c.set_block pos.1 pos.2.1 pos.2.2 t) (Chunk.init 0 0)

set_option maxHeartbeats 1600000 in
/-- C5: a chunk holding exactly one solid block meshes to exactly 6 faces
(36 vertices, 5 floats each); in the 2x2x2 cube of one solid material no face
is emitted between two cube blocks. -/
theorem claim_C5 (t : ℤ) (ht : t ≠ EMPTY) (htr : t ∉ TRANSPARENT_BLOCKS) :
    (∀ (c : Chunk) (x y z : ℤ), c.blocks = [((x, y, z), Block.mk t x y z)] →
      get_visible_faces c x y z (Block.mk t x y z) =
        ["front", "back", "right", "left", "top", "bottom"] ∧
      (build_chunk_mesh c).length = 36 * 5) ∧
    (∀ pos ∈ cubeCells, ∀ d ∈ directions,
      (pos.1 + d.2.1, pos.2.1 + d.2.2.1, pos.2.2 + d.2.2.2) ∈ cubeCells →
      d.1 ∉ get_visible_faces (cubeChunk t) pos.1 pos.2.1 pos.2.2
        (Block.mk t pos.1 pos.2.1 pos.2.2)) := by
  constructor
  · intro c x y z hc
    have hd : ∀ dx dy dz : ℤ, ¬(dx = 0 ∧ dy = 0 ∧ dz = 0) →
        c.get_block (x + dx) (y + dy) (z + dz) =
          Block.mk EMPTY (x + dx) (y + dy) (z + dz) := by
      intro dx dy dz hne
      have hnone : dget c.blocks (x + dx, y + dy, z + dz) = none := by
        rw [hc]
        simp only [dget]
        rw [if_neg (by simp only [Prod.mk.injEq]; omega)]
      unfold Chunk.get_block
      rw [hnone]
      rfl
    have e1 := hd 0 0 1 (by omega)
    have e2 := hd 0 0 (-1) (by omega)
    have e3 := hd 1 0 0 (by omega)
    have e4 := hd (-1) 0 0 (by omega)
    have e5 := hd 0 1 0 (by omega)
    have e6 := hd 0 (-1) 0 (by omega)
    have hfaces : get_visible_faces c x y z (Block.mk t x y z) =
        ["front", "back", "right", "left", "top", "bottom"] := by
      unfold get_visible_faces directions
      simp only [List.filter_cons, List.filter_nil]
      rw [e1, e2, e3, e4, e5, e6]
      simp [Block.is_empty]
    refine ⟨hfaces, ?_⟩
    unfold build_chunk_mesh
    rw [hc]
    simp only [List.foldl_cons, List.foldl_nil]
    have hbe : (Block.mk t x y z).is_empty = false := by
      simp [Block.is_empty, ht]
    rw [hbe]
    simp only [Bool.false_eq_true, if_false]
    rw [hfaces]
    simp only [List.foldl_cons, List.foldl_nil, List.length_append,
      List.nil_append]
    rw [get_face_vertices_length x y z t "front" (by simp),
      get_face_vertices_length x y z t "back" (by simp),
      get_face_vertices_length x y z t "right" (by simp),
      get_face_vertices_length x y z t "left" (by simp),
      get_face_vertices_length x y z t "top" (by simp),
      get_face_vertices_length x y z t "bottom" (by simp)]
  · have hcb : (cubeChunk t).blocks =
        [((0, 0, 0), Block.mk t 0 0 0), ((0, 0, 1), Block.mk t 0 0 1),
         ((0, 1, 0), Block.mk t 0 1 0), ((0, 1, 1), Block.mk t 0 1 1),
         ((1, 0, 0), Block.mk t 1 0 0), ((1, 0, 1), Block.mk t 1 0 1),
         ((1, 1, 0), Block.mk t 1 1 0), ((1, 1, 1), Block.mk t 1 1 1)] := by
      simp only [cubeChunk, cubeCells, List.foldl_cons, List.foldl_nil,
        Chunk.set_block, if_neg ht]
      rfl
    intro pos hpos d hdir hnb
    fin_cases hpos <;> fin_cases hdir <;>
      first
      | exact absurd hnb (by decide)
      | (simp [get_visible_faces, directions, Chunk.get_block, hcb, dget,
          Prod.mk.injEq, Block.is_empty, Block.is_transparent, ht,
          -Prod.mk_one_one, -Prod.mk_zero_zero])


theorem dget_eq_none_iff_keys {K V : Type} [DecidableEq K]
    (m : List (K × V)) (k : K) :
    dget m k = none ↔ k ∉ m.map Prod.fst := by
  rw [dget_eq_none_iff]
  simp only [List.mem_map]
  constructor
  · rintro hall ⟨kv, hkv, rfl⟩
    exact hall kv hkv rfl
  · intro hno kv hkv hk
    exact hno ⟨kv, hkv, hk⟩

theorem foldl_fixed {α β : Type} (f : β → α → β) (l : List α) (b : β)
    (h : ∀ a ∈ l, f b a = b) : l.foldl f b = b := by
  induction l with
  | nil => rfl
  | cons hd tl ih =>
    rw [List.foldl_cons, h hd (List.mem_cons_self _ _)]
    exact ih fun a ha => h a (List.mem_cons_of_mem _ ha)

theorem foldl_ddel_dget {K V : Type} [DecidableEq K]
    (rem : List K) (m : List (K × V)) (k : K) :
    dget (rem.foldl ddel m) k = if k ∈ rem then none else dget m k := by
  induction rem generalizing m with
  | nil => simp
  | cons r rest ih =>
    rw [List.foldl_cons, ih, dget_ddel]
    by_cases h1 : k ∈ rest
    · simp [h1]
    · by_cases h2 : k = r <;> simp [h1, h2]

theorem unload_dget (deleteR : ℤ) (w : World) (cp cq : ℤ) (p q : ℤ) :
    dget (w.unload_distant_chunks deleteR cp cq).chunks (p, q) =
      if ((max (p - cp).natAbs (q - cq).natAbs : ℤ) > deleteR) then none
      else dget w.chunks (p, q) := by
  unfold World.unload_distant_chunks
  rw [foldl_ddel_dget]
  by_cases hfar : ((max (p - cp).natAbs (q - cq).natAbs : ℤ) > deleteR)
  · rw [if_pos hfar]
    by_cases hin : (p, q) ∈ w.chunks.map Prod.fst
    · rw [if_pos]
      refine List.mem_filter.mpr ⟨hin, ?_⟩
      simpa using hfar
    · rw [if_neg, (dget_eq_none_iff_keys _ _).mpr hin]
      intro hmem
      exact hin (List.mem_of_mem_filter hmem)
  · rw [if_neg hfar, if_neg]
    intro hmem
    have hb := List.of_mem_filter hmem
    simp only [decide_eq_true_eq] at hb
    exact hfar (by simpa using hb)

theorem gen_step_pres (sinf cosf : ℚ → ℚ) (rng : Rng) (gp gq : ℤ) (k : ℤ × ℤ)
    (b : World) (hb : (dget b.chunks k).isSome = true) :
    (dget (if (dget b.chunks (gp, gq)).isSome = true then b
      else b.generate_chunk sinf cosf rng gp gq).chunks k).isSome = true := by
  split_ifs with hc
  · exact hb
  · unfold World.generate_chunk
    simp only [dget_dset]
    split_ifs with hk
    · rfl
    · exact hb

theorem load_dget_isSome_mono (createR : ℤ) (sinf cosf : ℚ → ℚ) (rng : Rng)
    (w : World) (cp cq : ℤ) (k : ℤ × ℤ)
    (h : (dget w.chunks k).isSome = true) :
    (dget (w.load_chunks_around createR sinf cosf rng cp cq).chunks k).isSome = true := by
  unfold World.load_chunks_around
  refine foldl_pres (fun (w' : World) => (dget w'.chunks k).isSome = true) _ _ ?_ _ h
  intro b dp _ hb
  refine foldl_pres (fun (w' : World) => (dget w'.chunks k).isSome = true) _ _ ?_ _ hb
  intro b' dq _ hb'
  exact gen_step_pres sinf cosf rng _ _ k b' hb'

theorem load_dget_isSome_of_near (createR : ℤ) (sinf cosf : ℚ → ℚ) (rng : Rng)
    (w : World) (cp cq : ℤ) (p q : ℤ)
    (h : (max (p - cp).natAbs (q - cq).natAbs : ℤ) ≤ createR) :
    (dget (w.load_chunks_around createR sinf cosf rng cp cq).chunks (p, q)).isSome
      = true := by
  unfold World.load_chunks_around
  have hdp : (p - cp) ∈ intRange (-createR) (createR + 1) :=
    mem_intRange.mpr (by omega)
  have hdq : (q - cq) ∈ intRange (-createR) (createR + 1) :=
    mem_intRange.mpr (by omega)
  refine foldl_attain (fun (w' : World) => (dget w'.chunks (p, q)).isSome = true) _ _
    (p - cp) hdp ?_ ?_ w
  · intro b
    refine foldl_attain (fun (w' : World) => (dget w'.chunks (p, q)).isSome = true) _ _
      (q - cq) hdq ?_ ?_ b
    · intro b'
      dsimp only
      rw [show cp + (p - cp) = p from by ring, show cq + (q - cq) = q from by ring]
      by_cases hc : (dget b'.chunks (p, q)).isSome = true
      · rw [if_pos hc]
        exact hc
      · rw [if_neg hc]
        unfold World.generate_chunk
        simp only [dget_dset, if_pos rfl]
        rfl
    · intro b' dq _ hb'
      exact gen_step_pres sinf cosf rng _ _ _ b' hb'
  · intro b dp _ hb
    refine foldl_pres (fun (w' : World) => (dget w'.chunks (p, q)).isSome = true) _ _ ?_ _ hb
    intro b' dq _ hb'
    exact gen_step_pres sinf cosf rng _ _ _ b' hb'

theorem update_cheb_le (createR deleteR : ℤ) (sinf cosf : ℚ → ℚ) (rng : Rng)
    (w : World) (pos : Vec3) (p q : ℤ)
    (h : (dget (w.update createR deleteR sinf cosf rng pos).chunks (p, q)).isSome
      = true) :
    (max (p - chunked pos.x).natAbs (q - chunked pos.z).natAbs : ℤ) ≤ deleteR := by
  unfold World.update at h
  rw [unload_dget] at h
  by_contra hfar
  rw [if_pos (by omega)] at h
  cases h

theorem update_isSome_of_near (createR deleteR : ℤ) (sinf cosf : ℚ → ℚ)
    (rng : Rng) (w : World) (pos : Vec3) (p q : ℤ)
    (hcd : createR ≤ deleteR)
    (h : (max (p - chunked pos.x).natAbs (q - chunked pos.z).natAbs : ℤ) ≤ createR) :
    (dget (w.update createR deleteR sinf cosf rng pos).chunks (p, q)).isSome
      = true := by
  unfold World.update
  rw [unload_dget, if_neg (by omega)]
  exact load_dget_isSome_of_near createR sinf cosf rng w _ _ p q h

/-- C3: after `World.update(pos)` every loaded chunk is within Chebyshev
distance `DELETE_CHUNK_RADIUS` of the player's chunk, and every chunk within
`CREATE_CHUNK_RADIUS` is loaded (given delete radius at least create radius). -/
theorem claim_C3 (createR deleteR : ℤ) (sinf cosf : ℚ → ℚ) (rng : Rng)
    (w : World) (pos : Vec3) (hcd : createR ≤ deleteR) :
    (∀ p q : ℤ,
      (dget (w.update createR deleteR sinf cosf rng pos).chunks (p, q)).isSome = true →
      (max (p - chunked pos.x).natAbs (q - chunked pos.z).natAbs : ℤ) ≤ deleteR) ∧
    (∀ p q : ℤ,
      (max (p - chunked pos.x).natAbs (q - chunked pos.z).natAbs : ℤ) ≤ createR →
      (dget (w.update createR deleteR sinf cosf rng pos).chunks (p, q)).isSome
        = true) :=
  ⟨fun p q h => update_cheb_le createR deleteR sinf cosf rng w pos p q h,
    fun p q h => update_isSome_of_near createR deleteR sinf cosf rng w pos p q hcd h⟩

/-- Witness for C3: radii 1 ≤ 2, an empty world, the origin position; the
player's own chunk is loaded afterwards and within the delete radius. -/
theorem claim_C3_witness :
    ((max ((0 : ℤ) - chunked (Vec3.mk 0 0 0).x).natAbs
        ((0 : ℤ) - chunked (Vec3.mk 0 0 0).z).natAbs : ℤ) ≤ 1 →
      (dget ((World.init 7).update 1 2 (fun _ => 0) (fun _ => 0) rng0
        (Vec3.mk 0 0 0)).chunks (0, 0)).isSome = true) ∧
    ((dget ((World.init 7).update 1 2 (fun _ => 0) (fun _ => 0) rng0
        (Vec3.mk 0 0 0)).chunks (0, 0)).isSome = true →
      (max ((0 : ℤ) - chunked (Vec3.mk 0 0 0).x).natAbs
        ((0 : ℤ) - chunked (Vec3.mk 0 0 0).z).natAbs : ℤ) ≤ 2) :=
  ⟨fun h => (claim_C3 1 2 (fun _ => 0) (fun _ => 0) rng0 (World.init 7)
      (Vec3.mk 0 0 0) (by norm_num)).2 0 0 h,
    fun h => (claim_C3 1 2 (fun _ => 0) (fun _ => 0) rng0 (World.init 7)
      (Vec3.mk 0 0 0) (by norm_num)).1 0 0 h⟩

theorem load_fixed (createR : ℤ) (sinf cosf : ℚ → ℚ) (rng : Rng) (w : World)
    (cp cq : ℤ)
    (h : ∀ p q : ℤ, (max (p - cp).natAbs (q - cq).natAbs : ℤ) ≤ createR →
      (dget w.chunks (p, q)).isSome = true) :
    w.load_chunks_around createR sinf cosf rng cp cq = w := by
  unfold World.load_chunks_around
  refine foldl_fixed _ _ _ ?_
  intro dp hdp
  refine foldl_fixed _ _ _ ?_
  intro dq hdq
  dsimp only
  rw [if_pos]
  have h1 := mem_intRange.mp hdp
  have h2 := mem_intRange.mp hdq
  exact h (cp + dp) (cq + dq) (by omega)

theorem unload_fixed (deleteR : ℤ) (w : World) (cp cq : ℤ)
    (h : ∀ p q : ℤ, (dget w.chunks (p, q)).isSome = true →
      (max (p - cp).natAbs (q - cq).natAbs : ℤ) ≤ deleteR) :
    w.unload_distant_chunks deleteR cp cq = w := by
  unfold World.unload_distant_chunks
  have hrem : (w.chunks.map Prod.fst).filter
      (fun k => decide (max (k.1 - cp).natAbs (k.2 - cq).natAbs > deleteR))
      = [] := by
    rw [List.filter_eq_nil_iff]
    intro k hk
    obtain ⟨kp, kq⟩ := k
    simp only [decide_eq_true_eq]
    have hsome : (dget w.chunks (kp, kq)).isSome = true := by
      cases hdg : dget w.chunks (kp, kq) with
      | none => exact absurd hk ((dget_eq_none_iff_keys _ _).mp hdg)
      | some c => rfl
    have := h kp kq hsome
    omega
  rw [hrem]
  rfl

/-- C4: `World.update` is idempotent — after one update every chunk the load
phase would visit is already present (so the second call generates nothing),
and a second update with the same position returns the world unchanged. -/
theorem claim_C4 (createR deleteR : ℤ) (sinf cosf : ℚ → ℚ) (rng : Rng)
    (w : World) (pos : Vec3) (hcd : createR ≤ deleteR) :
    (∀ p q : ℤ,
      (max (p - chunked pos.x).natAbs (q - chunked pos.z).natAbs : ℤ) ≤ createR →
      (dget (w.update createR deleteR sinf cosf rng pos).chunks (p, q)).isSome
        = true) ∧
    (w.update createR deleteR sinf cosf rng pos).update createR deleteR sinf cosf
        rng pos = w.update createR deleteR sinf cosf rng pos := by
  have hpresent : ∀ p q : ℤ,
      (max (p - chunked pos.x).natAbs (q - chunked pos.z).natAbs : ℤ) ≤ createR →
      (dget (w.update createR deleteR sinf cosf rng pos).chunks (p, q)).isSome
        = true :=
    fun p q h => update_isSome_of_near createR deleteR sinf cosf rng w pos p q hcd h
  refine ⟨hpresent, ?_⟩
  set w1 := w.update createR deleteR sinf cosf rng pos with hw1
  have hdist : ∀ p q : ℤ, (dget w1.chunks (p, q)).isSome = true →
      (max (p - chunked pos.x).natAbs (q - chunked pos.z).natAbs : ℤ) ≤ deleteR := by
    intro p q h'
    rw [hw1] at h'
    exact update_cheb_le createR deleteR sinf cosf rng w pos p q h'
  show World.unload_distant_chunks deleteR
      (World.load_chunks_around createR sinf cosf rng w1 (chunked pos.x)
        (chunked pos.z)) (chunked pos.x) (chunked pos.z) = w1
  rw [load_fixed createR sinf cosf rng w1 (chunked pos.x) (chunked pos.z) hpresent,
    unload_fixed deleteR w1 (chunked pos.x) (chunked pos.z) hdist]

/-- Witness for C4: radii 1 ≤ 2, an empty world, the origin position. -/
theorem claim_C4_witness :
    ((max ((0 : ℤ) - chunked (Vec3.mk 0 0 0).x).natAbs
        ((0 : ℤ) - chunked (Vec3.mk 0 0 0).z).natAbs : ℤ) ≤ 1 →
      (dget ((World.init 7).update 1 2 (fun _ => 0) (fun _ => 0) rng0
        (Vec3.mk 0 0 0)).chunks (0, 0)).isSome = true) ∧
    ((World.init 7).update 1 2 (fun _ => 0) (fun _ => 0) rng0
        (Vec3.mk 0 0 0)).update 1 2 (fun _ => 0) (fun _ => 0) rng0 (Vec3.mk 0 0 0)
      = (World.init 7).update 1 2 (fun _ => 0) (fun _ => 0) rng0 (Vec3.mk 0 0 0) :=
  ⟨fun h => (claim_C4 1 2 (fun _ => 0) (fun _ => 0) rng0 (World.init 7)
      (Vec3.mk 0 0 0) (by norm_num)).1 0 0 h,
    (claim_C4 1 2 (fun _ => 0) (fun _ => 0) rng0 (World.init 7)
      (Vec3.mk 0 0 0) (by norm_num)).2⟩

/-- Witness for C5 with material `STONE`, a single block at (2, 3, 4), and the
cube cell (0, 0, 0) with its +Z neighbor (0, 0, 1). -/
theorem claim_C5_witness :
    (get_visible_faces ((Chunk.init 0 0).set_block 2 3 4 STONE) 2 3 4
        (Block.mk STONE 2 3 4) =
      ["front", "back", "right", "left", "top", "bottom"] ∧
      (build_chunk_mesh ((Chunk.init 0 0).set_block 2 3 4 STONE)).length = 36 * 5) ∧
    "front" ∉ get_visible_faces (cubeChunk STONE) 0 0 0 (Block.mk STONE 0 0 0) :=
  ⟨(claim_C5 STONE (by decide) (by decide)).1 _ 2 3 4 (by decide),
    (claim_C5 STONE (by decide) (by decide)).2 (0, 0, 0) (by decide)
      ("front", 0, 0, 1) (by decide) (by decide)⟩

theorem set_block_p (c : Chunk) (x y z t : ℤ) : (c.set_block x y z t).p = c.p := by
  unfold Chunk.set_block
  split_ifs <;> rfl

theorem set_block_q (c : Chunk) (x y z t : ℤ) : (c.set_block x y z t).q = c.q := by
  unfold Chunk.set_block
  split_ifs <;> rfl

theorem foldl_chunk_p {α : Type} (f : Chunk → α → Chunk) (l : List α)
    (h : ∀ c a, a ∈ l → (f c a).p = c.p ∧ (f c a).q = c.q) (c₀ : Chunk) :
    (l.foldl f c₀).p = c₀.p ∧ (l.foldl f c₀).q = c₀.q := by
  refine foldl_pres (fun c => c.p = c₀.p ∧ c.q = c₀.q) f l ?_ c₀ ⟨rfl, rfl⟩
  intro b a ha hb
  exact ⟨(h b a ha).1.trans hb.1, (h b a ha).2.trans hb.2⟩

theorem generate_tree_pq (th x y z : ℤ) (c : Chunk) :
    (generate_tree th c x y z).p = c.p ∧ (generate_tree th c x y z).q = c.q := by
  unfold generate_tree
  have h1 := foldl_chunk_p _ (List.range th.toNat)
    (fun c' i _ => ⟨set_block_p c' x (y + (i : ℤ)) z WOOD,
      set_block_q c' x (y + (i : ℤ)) z WOOD⟩) c
  refine (foldl_chunk_p _ treeTriples ?_ _).imp (·.trans h1.1) (·.trans h1.2)
  intro c' d _
  dsimp only
  split_ifs
  · exact ⟨set_block_p _ _ _ _ _, set_block_q _ _ _ _ _⟩
  · exact ⟨rfl, rfl⟩
  · exact ⟨rfl, rfl⟩

theorem generate_column_pq (sinf cosf : ℚ → ℚ) (w : World) (rng : Rng)
    (x z : ℤ) (c : Chunk) :
    (generate_column sinf cosf w rng c x z).p = c.p ∧
    (generate_column sinf cosf w rng c x z).q = c.q := by
  unfold generate_column
  dsimp only
  have h1 := foldl_chunk_p
    (fun (c'' : Chunk) (y : ℕ) => c''.set_block x (y : ℤ) z
      (columnBlockType (w.get_terrain_height sinf cosf x z) (y : ℤ)))
    (List.range (min (w.get_terrain_height sinf cosf x z + 1) 256).toNat)
    (fun c' y _ => ⟨set_block_p c' x (y : ℤ) z _, set_block_q c' x (y : ℤ) z _⟩) c
  split_ifs with hp htr htr
  · exact (generate_tree_pq _ _ _ _ _).imp
      (·.trans ((set_block_p _ _ _ _ _).trans h1.1))
      (·.trans ((set_block_q _ _ _ _ _).trans h1.2))
  · exact (generate_tree_pq _ _ _ _ _).imp (·.trans h1.1) (·.trans h1.2)
  · exact ⟨(set_block_p _ _ _ _ _).trans h1.1, (set_block_q _ _ _ _ _).trans h1.2⟩
  · exact h1

theorem generate_chunk_blocks_pq (sinf cosf : ℚ → ℚ) (w : World) (rng : Rng)
    (p q : ℤ) :
    (generate_chunk_blocks sinf cosf w rng p q).p = p ∧
    (generate_chunk_blocks sinf cosf w rng p q).q = q := by
  unfold generate_chunk_blocks
  dsimp only
  exact foldl_chunk_p
    (fun (c : Chunk) (x : ℤ) =>
      List.foldl (fun c z => generate_column sinf cosf w rng c x z) c
        (intRange c.min_z (c.max_z + 1)))
    (intRange (Chunk.init p q).min_x ((Chunk.init p q).max_x + 1))
    (fun c x _ => foldl_chunk_p
      (fun c z => generate_column sinf cosf w rng c x z)
      (intRange c.min_z (c.max_z + 1))
      (fun c' z _ => generate_column_pq sinf cosf w rng x z c') c)
    (Chunk.init p q)

theorem set_block_blocks_forward {c : Chunk} {x y z t : ℤ} {kb : (ℤ × ℤ × ℤ) × Block}
    (h : kb ∈ (c.set_block x y z t).blocks) : kb ∈ c.blocks ∨ kb.1 = (x, y, z) := by
  unfold Chunk.set_block at h
  split_ifs at h with ht
  · exact Or.inl (mem_ddel h)
  · rcases mem_dset h with rfl | hm
    · exact Or.inr rfl
    · exact Or.inl hm

theorem foldl_blocks_forward {α : Type} (f : Chunk → α → Chunk)
    (R : α → (ℤ × ℤ × ℤ) → Prop) :
    ∀ (l : List α) (c₀ : Chunk),
    (∀ c a, a ∈ l → ∀ kb ∈ (f c a).blocks, kb ∈ c.blocks ∨ R a kb.1) →
    ∀ kb ∈ (l.foldl f c₀).blocks, kb ∈ c₀.blocks ∨ ∃ a ∈ l, R a kb.1 := by
  intro l
  induction l with
  | nil => exact fun c₀ _ kb hkb => Or.inl hkb
  | cons hd tl ih =>
    intro c₀ hstep kb hkb
    rcases ih (f c₀ hd) (fun c a ha => hstep c a (List.mem_cons_of_mem _ ha))
        kb hkb with hin | ⟨a, ha, hr⟩
    · rcases hstep c₀ hd (List.mem_cons_self _ _) kb hin with h1 | h1
      · exact Or.inl h1
      · exact Or.inr ⟨hd, List.mem_cons_self _ _, h1⟩
    · exact Or.inr ⟨a, List.mem_cons_of_mem _ ha, hr⟩

/-- The column (x, z) writes only keys within 2 of itself horizontally. -/
def nearColumn (x z : ℤ) (k : ℤ × ℤ × ℤ) : Prop :=
  x - 2 ≤ k.1 ∧ k.1 ≤ x + 2 ∧ z - 2 ≤ k.2.2 ∧ k.2.2 ≤ z + 2

set_option maxRecDepth 8192 in
theorem generate_tree_forward (th x y z : ℤ) (c : Chunk) :
    ∀ kb ∈ (generate_tree th c x y z).blocks,
      kb ∈ c.blocks ∨ nearColumn x z kb.1 := by
  unfold generate_tree
  intro kb hkb
  have htri : ∀ d ∈ treeTriples, -2 ≤ d.1 ∧ d.1 ≤ 2 ∧ -2 ≤ d.2.2 ∧ d.2.2 ≤ 2 := by
    decide
  have h2 := foldl_blocks_forward _
    (fun (d : ℤ × ℤ × ℤ) (k : ℤ × ℤ × ℤ) => k.1 = x + d.1 ∧ k.2.2 = z + d.2.2)
    treeTriples _ ?_ kb hkb
  rotate_left
  · intro c' d _ kb' hkb'
    dsimp only at hkb'
    split_ifs at hkb' with h1 h2'
    · rcases set_block_blocks_forward hkb' with hin | hk
      · exact Or.inl hin
      · exact Or.inr ⟨by rw [hk], by rw [hk]⟩
    · exact Or.inl hkb'
    · exact Or.inl hkb'
  rcases h2 with hin | ⟨d, hd, h3, h4⟩
  · have h1 := foldl_blocks_forward _
      (fun (_ : ℕ) (k : ℤ × ℤ × ℤ) => k.1 = x ∧ k.2.2 = z)
      (List.range th.toNat) c ?_ kb hin
    rotate_left
    · intro c' i _ kb' hkb'
      rcases set_block_blocks_forward hkb' with hin' | hk
      · exact Or.inl hin'
      · exact Or.inr ⟨by rw [hk], by rw [hk]⟩
    rcases h1 with hin' | ⟨_, _, hx, hz⟩
    · exact Or.inl hin'
    · exact Or.inr ⟨by omega, by omega, by omega, by omega⟩
  · have := htri d hd
    exact Or.inr ⟨by omega, by omega, by omega, by omega⟩

theorem generate_column_forward (sinf cosf : ℚ → ℚ) (w : World) (rng : Rng)
    (x z : ℤ) (c : Chunk) :
    ∀ kb ∈ (generate_column sinf cosf w rng c x z).blocks,
      kb ∈ c.blocks ∨ nearColumn x z kb.1 := by
  unfold generate_column
  dsimp only
  intro kb hkb
  have hfill : ∀ (c' : Chunk) (kb' : (ℤ × ℤ × ℤ) × Block),
      kb' ∈ ((List.range (min (w.get_terrain_height sinf cosf x z + 1) 256).toNat).foldl
        (fun c'' y => c''.set_block x (y : ℤ) z
          (columnBlockType (w.get_terrain_height sinf cosf x z) (y : ℤ))) c').blocks →
      kb' ∈ c'.blocks ∨ nearColumn x z kb'.1 := by
    intro c' kb' hkb'
    have hstep : ∀ (c'' : Chunk) (i : ℕ),
        i ∈ List.range (min (w.get_terrain_height sinf cosf x z + 1) 256).toNat →
        ∀ kb'' ∈ (c''.set_block x (i : ℤ) z
          (columnBlockType (w.get_terrain_height sinf cosf x z) (i : ℤ))).blocks,
        kb'' ∈ c''.blocks ∨ (kb''.1.1 = x ∧ kb''.1.2.2 = z) := by
      intro c'' i _ kb'' hkb''
      rcases set_block_blocks_forward hkb'' with hin' | hk
      · exact Or.inl hin'
      · exact Or.inr ⟨by rw [hk], by rw [hk]⟩
    rcases foldl_blocks_forward _
        (fun (_ : ℕ) (k : ℤ × ℤ × ℤ) => k.1 = x ∧ k.2.2 = z) _ c' hstep kb' hkb' with
        hin | ⟨_, _, hx, hz⟩
    · exact Or.inl hin
    · right
      unfold nearColumn
      omega
  have hplant : ∀ (c' : Chunk) (kb' : (ℤ × ℤ × ℤ) × Block),
      kb' ∈ (if w.get_terrain_height sinf cosf x z > 0 ∧ rng.plantRoll x z = true then
        c'.set_block x (w.get_terrain_height sinf cosf x z + 1) z
          (plantChoice (rng.plantPick x z))
      else c').blocks → kb' ∈ c'.blocks ∨ nearColumn x z kb'.1 := by
    intro c' kb' hkb'
    split_ifs at hkb'
    · rcases set_block_blocks_forward hkb' with hin' | hk
      · exact Or.inl hin'
      · right
        have h1 : kb'.1.1 = x := by rw [hk]
        have h2 : kb'.1.2.2 = z := by rw [hk]
        unfold nearColumn
        omega
    · exact Or.inl hkb'
  by_cases h1 : w.get_terrain_height sinf cosf x z > 5 ∧ rng.treeRoll x z = true
  · rw [if_pos h1] at hkb
    rcases generate_tree_forward _ _ _ _ _ kb hkb with h2 | h2
    · rcases hplant _ _ h2 with h3 | h3
      · rcases hfill _ _ h3 with h4 | h4
        · exact Or.inl h4
        · exact Or.inr h4
      · exact Or.inr h3
    · exact Or.inr h2
  · rw [if_neg h1] at hkb
    rcases hplant _ _ hkb with h3 | h3
    · rcases hfill _ _ h3 with h4 | h4
      · exact Or.inl h4
      · exact Or.inr h4
    · exact Or.inr h3

theorem generate_chunk_blocks_ext (sinf cosf : ℚ → ℚ) (w : World) (rng : Rng)
    (p q : ℤ) :
    ∀ kb ∈ (generate_chunk_blocks sinf cosf w rng p q).blocks,
      p * 32 - 2 ≤ kb.1.1 ∧ kb.1.1 ≤ p * 32 + 33 ∧
      q * 32 - 2 ≤ kb.1.2.2 ∧ kb.1.2.2 ≤ q * 32 + 33 := by
  unfold generate_chunk_blocks
  dsimp only
  have hmain := foldl_pres
    (fun (c : Chunk) => c.p = p ∧ c.q = q ∧ ∀ kb ∈ c.blocks,
      p * 32 - 2 ≤ kb.1.1 ∧ kb.1.1 ≤ p * 32 + 33 ∧
      q * 32 - 2 ≤ kb.1.2.2 ∧ kb.1.2.2 ≤ q * 32 + 33)
    (fun (c : Chunk) (x : ℤ) =>
      List.foldl (fun c z => generate_column sinf cosf w rng c x z) c
        (intRange c.min_z (c.max_z + 1)))
    (intRange (Chunk.init p q).min_x ((Chunk.init p q).max_x + 1)) ?_
    (Chunk.init p q) ⟨rfl, rfl, by intro kb hkb; simp [Chunk.init] at hkb⟩
  · exact hmain.2.2
  · intro c a ha hc
    obtain ⟨hcp, hcq, hbound⟩ := hc
    have hpq := foldl_chunk_p
      (fun c z => generate_column sinf cosf w rng c a z)
      (intRange c.min_z (c.max_z + 1))
      (fun c' z _ => generate_column_pq sinf cosf w rng a z c') c
    refine ⟨hpq.1.trans hcp, hpq.2.trans hcq, ?_⟩
    intro kb hkb
    rcases foldl_blocks_forward _ (fun (z : ℤ) (k : ℤ × ℤ × ℤ) => nearColumn a z k)
        (intRange c.min_z (c.max_z + 1)) c
        (fun c' z _ kb' hkb' => generate_column_forward sinf cosf w rng a z c' kb' hkb')
        kb hkb with hin | ⟨z, hz, hnear⟩
    · exact hbound kb hin
    · have ha' := mem_intRange.mp ha
      have hz' := mem_intRange.mp hz
      simp only [Chunk.min_x, Chunk.max_x, Chunk.init, CHUNK_SIZE] at ha'
      simp only [Chunk.min_z, Chunk.max_z, CHUNK_SIZE, hcp, hcq] at hz'
      unfold nearColumn at hnear
      omega

/-- The footprint invariant claimed by C2: a stored key lies inside the
chunk's own horizontal bounding box. -/
def inFootprint (c : Chunk) (k : ℤ × ℤ × ℤ) : Prop :=
  c.min_x ≤ k.1 ∧ k.1 ≤ c.max_x ∧ c.min_z ≤ k.2.2 ∧ k.2.2 ≤ c.max_z

/-- The corrected bound: tree leaves may spill up to 2 cells beyond the
horizontal bounding box. -/
def inExtFootprint (c : Chunk) (k : ℤ × ℤ × ℤ) : Prop :=
  c.min_x - 2 ≤ k.1 ∧ k.1 ≤ c.max_x + 2 ∧ c.min_z - 2 ≤ k.2.2 ∧ k.2.2 ≤ c.max_z + 2

/-- Every chunk in the world map sits at its own (p, q) key and stores only
keys within the extended footprint. -/
def chunksWellPlaced (w : World) : Prop :=
  ∀ pc ∈ w.chunks, pc.2.p = pc.1.1 ∧ pc.2.q = pc.1.2 ∧
    ∀ kb ∈ pc.2.blocks, inExtFootprint pc.2 kb.1

/-- World states reachable through `World`'s operations: construction, the
per-tick `update`, and a world-level `set_block` (the route every player or
network block write takes). -/
inductive WorldReach (createR deleteR : ℤ) (sinf cosf : ℚ → ℚ) (rng : Rng) :
    World → Prop where
  | start (seed : ℤ) : WorldReach createR deleteR sinf cosf rng (World.init seed)
  | update (w : World) (pos : Vec3)
      (h : WorldReach createR deleteR sinf cosf rng w) :
      WorldReach createR deleteR sinf cosf rng
        (w.update createR deleteR sinf cosf rng pos)
  | write (w : World) (x y z t : ℤ)
      (h : WorldReach createR deleteR sinf cosf rng w) :
      WorldReach createR deleteR sinf cosf rng (w.set_block x y z t)

theorem mem_foldl_ddel {K V : Type} [DecidableEq K] {rem : List K}
    {m : List (K × V)} {a : K × V} (h : a ∈ rem.foldl ddel m) : a ∈ m := by
  induction rem generalizing m with
  | nil => exact h
  | cons r rest ih => exact mem_ddel (ih h)

theorem set_block_wellPlaced {w : World} (x y z t : ℤ)
    (h : chunksWellPlaced w) : chunksWellPlaced (w.set_block x y z t) := by
  unfold World.set_block World.get_chunk_for_position World.get_chunk
  cases hdg : dget w.chunks (chunked (x : ℚ), chunked (z : ℚ)) with
  | none => exact h
  | some c =>
    intro pc hpc
    dsimp only at hpc
    rcases mem_dset hpc with rfl | hold
    · have hc := h _ (dget_mem hdg)
      obtain ⟨hcp, hcq, hbound⟩ := hc
      dsimp only at hcp hcq hbound ⊢
      refine ⟨(set_block_p c x y z t).trans hcp,
        (set_block_q c x y z t).trans hcq, ?_⟩
      intro kb hkb
      have hfx := (chunked_intCast_eq_iff x (chunked (x : ℚ))).mp rfl
      have hfz := (chunked_intCast_eq_iff z (chunked (z : ℚ))).mp rfl
      have hpx : (c.set_block x y z t).min_x = c.min_x := by
        unfold Chunk.min_x
        rw [set_block_p]
      have hqx : (c.set_block x y z t).max_x = c.max_x := by
        unfold Chunk.max_x
        rw [set_block_p]
      have hpz : (c.set_block x y z t).min_z = c.min_z := by
        unfold Chunk.min_z
        rw [set_block_q]
      have hqz : (c.set_block x y z t).max_z = c.max_z := by
        unfold Chunk.max_z
        rw [set_block_q]
      rcases set_block_blocks_forward hkb with hin | hk
      · have := hbound kb hin
        unfold inExtFootprint at this ⊢
        rw [hpx, hqx, hpz, hqz]
        exact this
      · unfold inExtFootprint
        rw [hpx, hqx, hpz, hqz, hk]
        unfold Chunk.min_x Chunk.max_x Chunk.min_z Chunk.max_z CHUNK_SIZE
        rw [hcp, hcq]
        dsimp only
        omega
    · exact h pc hold

theorem generate_chunk_wellPlaced (sinf cosf : ℚ → ℚ) (rng : Rng) {w : World}
    (p q : ℤ) (h : chunksWellPlaced w) :
    chunksWellPlaced (w.generate_chunk sinf cosf rng p q) := by
  unfold World.generate_chunk
  intro pc hpc
  dsimp only at hpc
  rcases mem_dset hpc with rfl | hold
  · dsimp only
    obtain ⟨hgp, hgq⟩ := generate_chunk_blocks_pq sinf cosf w rng p q
    refine ⟨hgp, hgq, ?_⟩
    intro kb hkb
    have hb := generate_chunk_blocks_ext sinf cosf w rng p q kb hkb
    unfold inExtFootprint Chunk.min_x Chunk.max_x Chunk.min_z Chunk.max_z CHUNK_SIZE
    rw [hgp, hgq]
    omega
  · exact h pc hold

theorem update_wellPlaced (createR deleteR : ℤ) (sinf cosf : ℚ → ℚ) (rng : Rng)
    {w : World} (pos : Vec3) (h : chunksWellPlaced w) :
    chunksWellPlaced (w.update createR deleteR sinf cosf rng pos) := by
  unfold World.update
  have hload : chunksWellPlaced
      (w.load_chunks_around createR sinf cosf rng (chunked pos.x) (chunked pos.z)) := by
    unfold World.load_chunks_around
    refine foldl_pres chunksWellPlaced _ _ ?_ w h
    intro b dp _ hb
    refine foldl_pres chunksWellPlaced _ _ ?_ b hb
    intro b' dq _ hb'
    dsimp only
    split_ifs with hc
    · exact hb'
    · exact generate_chunk_wellPlaced sinf cosf rng _ _ hb'
  unfold World.unload_distant_chunks
  intro pc hpc
  exact hload pc (mem_foldl_ddel hpc)

/-- C2 (amended): in every reachable world, every chunk sits at its own
(p, q) key and every stored key lies within the chunk's horizontal footprint
extended by 2 cells on each side (the spill of tree leaves); writes routed
through `World.set_block` and the terrain/plant fill stay strictly inside the
footprint, tree leaves account for the extra 2. -/
theorem claim_C2 (createR deleteR : ℤ) (sinf cosf : ℚ → ℚ) (rng : Rng)
    (w : World) (h : WorldReach createR deleteR sinf cosf rng w) :
    chunksWellPlaced w := by
  induction h with
  | start seed => intro pc hpc; simp [World.init] at hpc
  | update w pos _ ih => exact update_wellPlaced createR deleteR sinf cosf rng pos ih
  | write w x y z t _ ih => exact set_block_wellPlaced x y z t ih

/-- Witness for the amended C2 at the freshly constructed world. -/
theorem claim_C2_witness : chunksWellPlaced (World.init 5) :=
  claim_C2 1 2 (fun _ => 0) (fun _ => 0) rng0 (World.init 5)
    (WorldReach.start 5)

/-- The zero math library (a valid stand-in for sin/cos: bounded by 1 and
1-Lipschitz), under which terrain height is 8 everywhere. -/
def zf : ℚ → ℚ := fun _ => 0

/-- An oracle under which exactly the column (0, 16) — on the chunk (0, 0)
western edge — rolls a tree, with trunk height 4, and no plants. -/
def cexRng : Rng :=
  { plantRoll := fun _ _ => false, plantPick := fun _ _ => 0,
    treeRoll := fun x z => decide (x = 0 ∧ z = 16), treePick := fun _ _ => 0 }

theorem cex_height (s x z : ℤ) :
    (World.init s).get_terrain_height zf zf x z = 8 := by
  unfold World.get_terrain_height zf World.init truncQ
  norm_num

theorem columnBlockType_ne (h y : ℤ) : columnBlockType h y ≠ EMPTY := by
  unfold columnBlockType
  split_ifs <;> decide

theorem plantChoice_ne (i : Fin 3) : plantChoice i ≠ EMPTY := by
  fin_cases i <;> decide

theorem set_block_dget_pres {c : Chunk} {x y z t : ℤ} {k : ℤ × ℤ × ℤ}
    (ht : t ≠ EMPTY) (h : (dget c.blocks k).isSome = true) :
    (dget (c.set_block x y z t).blocks k).isSome = true := by
  unfold Chunk.set_block
  rw [if_neg ht]
  dsimp only
  rw [dget_dset]
  split_ifs with hk
  · rfl
  · exact h

theorem generate_tree_dget_pres {c : Chunk} (th x y z : ℤ) {k : ℤ × ℤ × ℤ}
    (h : (dget c.blocks k).isSome = true) :
    (dget (generate_tree th c x y z).blocks k).isSome = true := by
  unfold generate_tree
  dsimp only
  refine foldl_pres (fun (c' : Chunk) => (dget c'.blocks k).isSome = true) _
    treeTriples ?_ _ ?_
  · intro b d _ hb
    dsimp only
    split_ifs
    · exact set_block_dget_pres (by decide) hb
    · exact hb
    · exact hb
  · refine foldl_pres (fun (c' : Chunk) => (dget c'.blocks k).isSome = true) _ _
      ?_ _ h
    intro b i _ hb
    exact set_block_dget_pres (by decide) hb

theorem generate_column_dget_pres (sinf cosf : ℚ → ℚ) (w : World) (rng : Rng)
    (x z : ℤ) {c : Chunk} {k : ℤ × ℤ × ℤ}
    (h : (dget c.blocks k).isSome = true) :
    (dget (generate_column sinf cosf w rng c x z).blocks k).isSome = true := by
  unfold generate_column
  dsimp only
  have hfill : ∀ (c' : Chunk), (dget c'.blocks k).isSome = true →
      (dget ((List.range (min (w.get_terrain_height sinf cosf x z + 1) 256).toNat).foldl
        (fun c'' y => c''.set_block x (y : ℤ) z
          (columnBlockType (w.get_terrain_height sinf cosf x z) (y : ℤ))) c').blocks
        k).isSome = true := by
    intro c' hc'
    refine foldl_pres (fun (c'' : Chunk) => (dget c''.blocks k).isSome = true) _ _
      ?_ _ hc'
    intro b i _ hb
    exact set_block_dget_pres (columnBlockType_ne _ _) hb
  have hplant : ∀ (c' : Chunk), (dget c'.blocks k).isSome = true →
      (dget (if w.get_terrain_height sinf cosf x z > 0 ∧ rng.plantRoll x z = true then
        c'.set_block x (w.get_terrain_height sinf cosf x z + 1) z
          (plantChoice (rng.plantPick x z))
      else c').blocks k).isSome = true := by
    intro c' hc'
    split_ifs
    · exact set_block_dget_pres (plantChoice_ne _) hc'
    · exact hc'
  by_cases h1 : w.get_terrain_height sinf cosf x z > 5 ∧ rng.treeRoll x z = true
  · rw [if_pos h1]
    exact generate_tree_dget_pres _ _ _ _ (hplant _ (hfill _ h))
  · rw [if_neg h1]
    exact hplant _ (hfill _ h)

set_option maxRecDepth 8192 in
theorem generate_tree_leaf (c : Chunk) (x y z : ℤ) :
    (dget (generate_tree 4 c x y z).blocks (x - 2, y + 4, z)).isSome = true := by
  unfold generate_tree
  dsimp only
  refine foldl_attain
    (fun (c' : Chunk) => (dget c'.blocks (x - 2, y + 4, z)).isSome = true)
    _ treeTriples ((-2 : ℤ), (0 : ℤ), (0 : ℤ)) (by decide) ?_ ?_ _
  · intro b
    dsimp only
    rw [if_pos (by norm_num), if_pos (by omega)]
    rw [show x + -2 = x - 2 from by ring, show y + 4 + 0 = y + 4 from by ring,
      show z + 0 = z from by ring]
    unfold Chunk.set_block
    rw [if_neg (by decide)]
    dsimp only
    rw [dget_dset, if_pos rfl]
    rfl
  · intro b d _ hb
    dsimp only
    split_ifs
    · exact set_block_dget_pres (by decide) hb
    · exact hb
    · exact hb

theorem cex_column_attain (w : World)
    (hw : ∀ x z : ℤ, w.get_terrain_height zf zf x z = 8) (c : Chunk) :
    (dget (generate_column zf zf w cexRng c 0 16).blocks
      ((-2 : ℤ), 13, 16)).isSome = true := by
  unfold generate_column
  dsimp only
  rw [hw 0 16]
  rw [if_pos (show (8 : ℤ) > 5 ∧ cexRng.treeRoll 0 16 = true from
    ⟨by norm_num, by simp [cexRng]⟩)]
  rw [if_neg (show ¬((8 : ℤ) > 0 ∧ cexRng.plantRoll 0 16 = true) from
    by simp [cexRng])]
  rw [show (4 + ((cexRng.treePick 0 16 : ℕ) : ℤ)) = 4 from by simp [cexRng],
    show (8 : ℤ) + 1 = 9 from by norm_num]
  have h := generate_tree_leaf
    ((List.range (min ((8 : ℤ) + 1) 256).toNat).foldl
      (fun c'' y => c''.set_block 0 (y : ℤ) 16 (columnBlockType 8 (y : ℤ))) c)
    0 9 16
  rw [show (0 : ℤ) - 2 = -2 from by norm_num, show (9 : ℤ) + 4 = 13 from by norm_num]
    at h
  exact h

theorem foldl_attain_inv {α β : Type} (J Q : β → Prop) (f : β → α → β)
    (l : List α) (a : α) (ha : a ∈ l)
    (hJ : ∀ b x, x ∈ l → J b → J (f b x))
    (hatt : ∀ b, J b → Q (f b a))
    (hpres : ∀ b x, x ∈ l → Q b → Q (f b x))
    (b : β) (hb : J b) : Q (l.foldl f b) := by
  induction l generalizing b with
  | nil => cases ha
  | cons hd tl ih =>
    rcases List.mem_cons.mp ha with rfl | hmem
    · exact foldl_pres Q f tl
        (fun b' x hx hq => hpres b' x (List.mem_cons_of_mem _ hx) hq) _ (hatt b hb)
    · exact ih hmem (fun b' x hx hj => hJ b' x (List.mem_cons_of_mem _ hx) hj)
        (fun b' x hx hq => hpres b' x (List.mem_cons_of_mem _ hx) hq) (f b hd)
        (hJ b hd (List.mem_cons_self _ _) hb)

/-- The chunk generated at (0, 0) under the counterexample oracle. -/
def gcex : Chunk := generate_chunk_blocks zf zf (World.init 0) cexRng 0 0

set_option maxRecDepth 16384 in
theorem cex_chunk_key : (dget gcex.blocks ((-2 : ℤ), 13, 16)).isSome = true := by
  unfold gcex generate_chunk_blocks
  dsimp only
  refine foldl_attain_inv (fun (c : Chunk) => c.p = 0 ∧ c.q = 0)
    (fun (c : Chunk) => (dget c.blocks ((-2 : ℤ), 13, 16)).isSome = true) _ _ (0 : ℤ)
    ?_ ?_ ?_ ?_ (Chunk.init 0 0) ⟨rfl, rfl⟩
  · exact mem_intRange.mpr
      (by norm_num [Chunk.min_x, Chunk.max_x, Chunk.init, CHUNK_SIZE])
  · intro b x _ hj
    obtain ⟨hp, hq⟩ := hj
    have := foldl_chunk_p (fun c z => generate_column zf zf (World.init 0) cexRng c x z)
      (intRange b.min_z (b.max_z + 1))
      (fun c' z _ => generate_column_pq zf zf (World.init 0) cexRng x z c') b
    exact ⟨this.1.trans hp, this.2.trans hq⟩
  · intro b hj
    obtain ⟨hp, hq⟩ := hj
    have hmin : b.min_z = 0 := by
      unfold Chunk.min_z CHUNK_SIZE
      rw [hq]
      norm_num
    have hmax : b.max_z = 31 := by
      unfold Chunk.max_z CHUNK_SIZE
      rw [hq]
      norm_num
    rw [hmin, hmax]
    refine foldl_attain
      (fun (c : Chunk) => (dget c.blocks ((-2 : ℤ), 13, 16)).isSome = true) _ _
      (16 : ℤ) (mem_intRange.mpr (by norm_num)) ?_ ?_ b
    · intro b'
      exact cex_column_attain (World.init 0) (fun x z => cex_height 0 x z) b'
    · intro b' z _ hb'
      exact generate_column_dget_pres zf zf (World.init 0) cexRng 0 z hb'
  · intro b x _ hb
    refine foldl_pres
      (fun (c : Chunk) => (dget c.blocks ((-2 : ℤ), 13, 16)).isSome = true) _ _
      ?_ _ hb
    intro b' z _ hb'
    exact generate_column_dget_pres zf zf (World.init 0) cexRng x z hb'

/-- A world reachable by one `update` from a fresh world, with radii 0, under
the counterexample oracle. -/
def cexWorld : World := (World.init 0).update 0 0 zf zf cexRng (Vec3.mk 0 0 0)

theorem chunked_zero : chunked (0 : ℚ) = 0 := by
  unfold chunked
  rw [zero_div]
  exact Int.floor_zero

theorem cex_range : intRange (-(0 : ℤ)) (0 + 1) = [0] := rfl

theorem cex_dget : dget cexWorld.chunks (0, 0) = some gcex := by
  unfold cexWorld World.update
  dsimp only
  rw [chunked_zero, unload_dget, if_neg (by decide)]
  unfold World.load_chunks_around
  rw [cex_range]
  simp only [List.foldl_cons, List.foldl_nil]
  rw [if_neg (by decide)]
  unfold World.generate_chunk
  dsimp only
  rw [dget_dset, if_pos (by norm_num)]
  unfold gcex
  norm_num

/-- C2 counterexample: with radii 0 and an oracle that rolls a tree at the
edge column (0, 16) of chunk (0, 0), a world reachable by a single
`update` holds a chunk that stores the tree-leaf key (-2, 13, 16), whose
x-coordinate -2 lies outside the chunk's own footprint [0, 31]. -/
theorem claim_C2_counterexample :
    WorldReach 0 0 zf zf cexRng cexWorld ∧
    ∃ c, dget cexWorld.chunks (0, 0) = some c ∧
      ∃ kb ∈ c.blocks, ¬ inFootprint c kb.1 := by
  refine ⟨WorldReach.update (World.init 0) (Vec3.mk 0 0 0) (WorldReach.start 0),
    gcex, cex_dget, ?_⟩
  have hsome := cex_chunk_key
  cases hvb : dget gcex.blocks ((-2 : ℤ), 13, 16) with
  | none =>
    rw [hvb] at hsome
    cases hsome
  | some b =>
    refine ⟨(((-2 : ℤ), 13, 16), b), dget_mem hvb, ?_⟩
    intro hfoot
    unfold inFootprint at hfoot
    obtain ⟨h1, _⟩ := hfoot
    have hp : gcex.p = 0 :=
      (generate_chunk_blocks_pq zf zf (World.init 0) cexRng 0 0).1
    unfold Chunk.min_x CHUNK_SIZE at h1
    rw [hp] at h1
    dsimp only at h1
    omega

theorem truncQ_le_add_three {t t' : ℚ} (h : t ≤ t' + 64 / 25) :
    truncQ t ≤ truncQ t' + 3 := by
  by_contra hcon
  push_neg at hcon
  have hcon4 : truncQ t' + 4 ≤ truncQ t := by omega
  have hcon' : ((truncQ t' : ℤ) : ℚ) + 4 ≤ ((truncQ t : ℤ) : ℚ) := by
    exact_mod_cast hcon4
  unfold truncQ at hcon'
  split_ifs at hcon' with h1 h2 h2
  · -- t' < 0, t < 0 : ceil vs ceil
    have a1 := Int.ceil_lt_add_one t
    have a2 := Int.le_ceil t'
    linarith
  · -- t' < 0, t ≥ 0 : floor t ≤ t, t' ≤ ceil t'
    have a1 := Int.floor_le t
    have a2 := Int.le_ceil t'
    linarith
  · -- t' ≥ 0, t < 0 : ceil t < t + 1 ≤ 1, floor t' ≥ 0
    have a1 := Int.ceil_lt_add_one t
    have a2 : ((0 : ℤ) : ℚ) ≤ ((⌊t'⌋ : ℤ) : ℚ) := by
      exact_mod_cast Int.floor_nonneg.mpr (not_lt.mp h1)
    push_cast at a2
    linarith
  · -- t' ≥ 0, t ≥ 0 : floor vs floor
    have a1 := Int.floor_le t
    have a2 := Int.sub_one_lt_floor t'
    linarith

theorem lip_prod (f g : ℚ → ℚ)
    (hf1 : ∀ a b : ℚ, |f a - f b| ≤ |a - b|) (hf2 : ∀ a : ℚ, |f a| ≤ 1)
    (hg1 : ∀ a b : ℚ, |g a - g b| ≤ |a - b|) (hg2 : ∀ a : ℚ, |g a| ≤ 1)
    (a a' b b' : ℚ) :
    |f a * g b - f a' * g b'| ≤ |a - a'| + |b - b'| := by
  have key : f a * g b - f a' * g b' = (f a - f a') * g b + f a' * (g b - g b') := by
    ring
  calc |f a * g b - f a' * g b'|
      = |(f a - f a') * g b + f a' * (g b - g b')| := by rw [key]
    _ ≤ |(f a - f a') * g b| + |f a' * (g b - g b')| := abs_add _ _
    _ = |f a - f a'| * |g b| + |f a'| * |g b - g b'| := by rw [abs_mul, abs_mul]
    _ ≤ |a - a'| * 1 + 1 * |b - b'| := by
        have h1 : |f a - f a'| * |g b| ≤ |a - a'| * 1 :=
          mul_le_mul (hf1 a a') (hg2 b) (abs_nonneg _) (abs_nonneg _)
        have h2 : |f a'| * |g b - g b'| ≤ 1 * |b - b'| :=
          mul_le_mul (hf2 a') (hg1 b b') (abs_nonneg _) (by norm_num)
        linarith
    _ = |a - a'| + |b - b'| := by ring

theorem height_lip (sinf cosf : ℚ → ℚ)
    (hs1 : ∀ a b : ℚ, |sinf a - sinf b| ≤ |a - b|) (hs2 : ∀ a : ℚ, |sinf a| ≤ 1)
    (hc1 : ∀ a b : ℚ, |cosf a - cosf b| ≤ |a - b|) (hc2 : ∀ a : ℚ, |cosf a| ≤ 1)
    (s : ℤ) (x z x' z' : ℤ) (hx : |x - x'| ≤ 2) (hz : |z - z'| ≤ 2) :
    (World.init s).get_terrain_height sinf cosf x z ≤
      (World.init s).get_terrain_height sinf cosf x' z' + 3 := by
  unfold World.get_terrain_height World.init
  dsimp only
  have hxq : |(x : ℚ) - (x' : ℚ)| ≤ 2 := by
    have h0 : ((|x - x'| : ℤ) : ℚ) ≤ 2 := by exact_mod_cast hx
    rw [Int.cast_abs] at h0
    push_cast at h0
    linarith [h0]
  have hzq : |(z : ℚ) - (z' : ℚ)| ≤ 2 := by
    have h0 : ((|z - z'| : ℤ) : ℚ) ≤ 2 := by exact_mod_cast hz
    rw [Int.cast_abs] at h0
    push_cast at h0
    linarith [h0]
  have ht1 : |sinf ((x : ℚ) * (1 / 50)) * cosf ((z : ℚ) * (1 / 50)) -
      sinf ((x' : ℚ) * (1 / 50)) * cosf ((z' : ℚ) * (1 / 50))| ≤ 2 / 50 + 2 / 50 := by
    have := lip_prod sinf cosf hs1 hs2 hc1 hc2
      ((x : ℚ) * (1 / 50)) ((x' : ℚ) * (1 / 50))
      ((z : ℚ) * (1 / 50)) ((z' : ℚ) * (1 / 50))
    have e1 : |(x : ℚ) * (1 / 50) - (x' : ℚ) * (1 / 50)| ≤ 2 / 50 := by
      rw [show (x : ℚ) * (1 / 50) - (x' : ℚ) * (1 / 50) =
        ((x : ℚ) - (x' : ℚ)) * (1 / 50) from by ring, abs_mul]
      rw [show |(1 : ℚ) / 50| = 1 / 50 from by norm_num]
      nlinarith [hxq]
    have e2 : |(z : ℚ) * (1 / 50) - (z' : ℚ) * (1 / 50)| ≤ 2 / 50 := by
      rw [show (z : ℚ) * (1 / 50) - (z' : ℚ) * (1 / 50) =
        ((z : ℚ) - (z' : ℚ)) * (1 / 50) from by ring, abs_mul]
      rw [show |(1 : ℚ) / 50| = 1 / 50 from by norm_num]
      nlinarith [hzq]
    linarith
  have ht2 : |sinf ((x : ℚ) * (1 / 50) * 2) * cosf ((z : ℚ) * (1 / 50) * 2) -
      sinf ((x' : ℚ) * (1 / 50) * 2) * cosf ((z' : ℚ) * (1 / 50) * 2)| ≤
      4 / 50 + 4 / 50 := by
    have := lip_prod sinf cosf hs1 hs2 hc1 hc2
      ((x : ℚ) * (1 / 50) * 2) ((x' : ℚ) * (1 / 50) * 2)
      ((z : ℚ) * (1 / 50) * 2) ((z' : ℚ) * (1 / 50) * 2)
    have e1 : |(x : ℚ) * (1 / 50) * 2 - (x' : ℚ) * (1 / 50) * 2| ≤ 4 / 50 := by
      rw [show (x : ℚ) * (1 / 50) * 2 - (x' : ℚ) * (1 / 50) * 2 =
        ((x : ℚ) - (x' : ℚ)) * (2 / 50) from by ring, abs_mul]
      rw [show |(2 : ℚ) / 50| = 2 / 50 from by norm_num]
      nlinarith [hxq]
    have e2 : |(z : ℚ) * (1 / 50) * 2 - (z' : ℚ) * (1 / 50) * 2| ≤ 4 / 50 := by
      rw [show (z : ℚ) * (1 / 50) * 2 - (z' : ℚ) * (1 / 50) * 2 =
        ((z : ℚ) - (z' : ℚ)) * (2 / 50) from by ring, abs_mul]
      rw [show |(2 : ℚ) / 50| = 2 / 50 from by norm_num]
      nlinarith [hzq]
    linarith
  set n : ℚ := sinf ((x : ℚ) * (1 / 50)) * cosf ((z : ℚ) * (1 / 50)) +
    sinf ((x : ℚ) * (1 / 50) * 2) * cosf ((z : ℚ) * (1 / 50) * 2) * (1 / 2) with hn
  set n' : ℚ := sinf ((x' : ℚ) * (1 / 50)) * cosf ((z' : ℚ) * (1 / 50)) +
    sinf ((x' : ℚ) * (1 / 50) * 2) * cosf ((z' : ℚ) * (1 / 50) * 2) * (1 / 2)
    with hn'
  have hnn : n - n' ≤ 4 / 25 := by
    rw [hn, hn']
    have a1 := abs_le.mp ht1
    have a2 := abs_le.mp ht2
    linarith [a1.2, a2.2]
  have htt : (8 : ℚ) + n * 16 ≤ ((8 : ℚ) + n' * 16) + 64 / 25 := by linarith
  have htr := truncQ_le_add_three htt
  rw [show (((8 : ℤ) : ℚ) + n * ((16 : ℤ) : ℚ)) = (8 : ℚ) + n * 16 from
      by push_cast; ring,
    show (((8 : ℤ) : ℚ) + n' * ((16 : ℤ) : ℚ)) = (8 : ℚ) + n' * 16 from
      by push_cast; ring]
  omega

theorem set_block_dget_other {c : Chunk} {x y z t : ℤ} {k : ℤ × ℤ × ℤ}
    (hk : k ≠ (x, y, z)) :
    dget (c.set_block x y z t).blocks k = dget c.blocks k := by
  unfold Chunk.set_block
  split_ifs
  · dsimp only
    rw [dget_ddel, if_neg hk]
  · dsimp only
    rw [dget_dset, if_neg hk]

theorem height_ge_one (sinf cosf : ℚ → ℚ) (w : World) (x z : ℤ) :
    1 ≤ w.get_terrain_height sinf cosf x z := by
  unfold World.get_terrain_height
  exact le_max_left _ _

theorem height_le_64 (sinf cosf : ℚ → ℚ) (w : World) (x z : ℤ) :
    w.get_terrain_height sinf cosf x z ≤ 64 := by
  unfold World.get_terrain_height
  exact max_le (by norm_num) (min_le_right _ _)

theorem columnBlockType_self {h : ℤ} (h1 : 1 ≤ h) :
    columnBlockType h h = GRASS := by
  unfold columnBlockType
  rw [if_neg (by omega), if_neg (by omega), if_neg (by omega)]

set_option maxRecDepth 8192 in
theorem generate_tree_surface_pres (th x₀ y₀ z₀ : ℤ) (k : ℤ × ℤ × ℤ)
    {c : Chunk} {v : Option Block}
    (htrunk : ∀ i : ℤ, 0 ≤ i → (x₀, y₀ + i, z₀) ≠ k)
    (hleaf : ∀ dx dy dz : ℤ, -2 ≤ dx → dx ≤ 2 → -2 ≤ dz → dz ≤ 2 → dy > -2 →
      (x₀ + dx, y₀ + th + dy, z₀ + dz) ≠ k)
    (h : dget c.blocks k = v) :
    dget (generate_tree th c x₀ y₀ z₀).blocks k = v := by
  unfold generate_tree
  dsimp only
  have htri : ∀ d ∈ treeTriples,
      -2 ≤ d.1 ∧ d.1 ≤ 2 ∧ -2 ≤ d.2.1 ∧ d.2.1 ≤ 2 ∧ -2 ≤ d.2.2 ∧ d.2.2 ≤ 2 := by
    decide
  refine foldl_pres (fun (c' : Chunk) => dget c'.blocks k = v) _ treeTriples
    ?_ _ ?_
  · intro b d hd hb
    dsimp only
    obtain ⟨e1, e2, e3, e4, e5, e6⟩ := htri d hd
    split_ifs with hs hg
    · rw [set_block_dget_other]
      · exact hb
      · intro he
        exact hleaf d.1 d.2.1 d.2.2 e1 e2 e5 e6 (by omega) he.symm
    · exact hb
    · exact hb
  · refine foldl_pres (fun (c' : Chunk) => dget c'.blocks k = v) _ _ ?_ _ h
    intro b i _ hb
    rw [set_block_dget_other]
    · exact hb
    · intro he
      exact htrunk (i : ℤ) (by omega) he.symm

theorem surface_column_attain (sinf cosf : ℚ → ℚ) (w : World) (rng : Rng)
    (x z : ℤ) (c : Chunk) :
    dget (generate_column sinf cosf w rng c x z).blocks
      (x, w.get_terrain_height sinf cosf x z, z) =
    some (Block.mk GRASS x (w.get_terrain_height sinf cosf x z) z) := by
  have hH1 := height_ge_one sinf cosf w x z
  have hH2 := height_le_64 sinf cosf w x z
  unfold generate_column
  dsimp only
  set H := w.get_terrain_height sinf cosf x z with hH
  have hfill : ∀ (c' : Chunk),
      dget ((List.range (min (H + 1) 256).toNat).foldl
        (fun c'' y => c''.set_block x (y : ℤ) z (columnBlockType H (y : ℤ)))
        c').blocks (x, H, z) = some (Block.mk GRASS x H z) := by
    intro c'
    refine foldl_attain
      (fun (c'' : Chunk) =>
        dget c''.blocks (x, H, z) = some (Block.mk GRASS x H z))
      _ _ H.toNat (List.mem_range.mpr (by omega)) ?_ ?_ c'
    · intro b
      dsimp only
      rw [show ((H.toNat : ℕ) : ℤ) = H from by omega, columnBlockType_self hH1]
      unfold Chunk.set_block
      rw [if_neg (by decide)]
      dsimp only
      rw [dget_dset, if_pos rfl]
    · intro b i _ hb
      dsimp only
      by_cases hi : (i : ℤ) = H
      · rw [hi, columnBlockType_self hH1]
        unfold Chunk.set_block
        rw [if_neg (by decide)]
        dsimp only
        rw [dget_dset, if_pos rfl]
      · rw [set_block_dget_other]
        · exact hb
        · intro he
          simp only [Prod.mk.injEq] at he
          exact hi he.2.1.symm
  have hplant : ∀ (c' : Chunk),
      dget c'.blocks (x, H, z) = some (Block.mk GRASS x H z) →
      dget (if H > 0 ∧ rng.plantRoll x z = true then
        c'.set_block x (H + 1) z (plantChoice (rng.plantPick x z))
      else c').blocks (x, H, z) = some (Block.mk GRASS x H z) := by
    intro c' hc'
    split_ifs
    · rw [set_block_dget_other]
      · exact hc'
      · intro he
        simp only [Prod.mk.injEq] at he
        omega
    · exact hc'
  by_cases h1 : H > 5 ∧ rng.treeRoll x z = true
  · rw [if_pos h1]
    refine generate_tree_surface_pres _ _ _ _ _ ?_ ?_ (hplant _ (hfill _))
    · intro i hi he
      simp only [Prod.mk.injEq] at he
      omega
    · intro dx dy dz e1 e2 e3 e4 e5 he
      simp only [Prod.mk.injEq] at he
      have hpick : (0 : ℤ) ≤ ((rng.treePick x z : ℕ) : ℤ) := by positivity
      omega
  · rw [if_neg h1]
    exact hplant _ (hfill _)

theorem surface_column_pres (sinf cosf : ℚ → ℚ) (w : World) (rng : Rng)
    (x' z' x z : ℤ) (hne : ¬(x' = x ∧ z' = z))
    (hl : |x - x'| ≤ 2 → |z - z'| ≤ 2 →
      w.get_terrain_height sinf cosf x z ≤
        w.get_terrain_height sinf cosf x' z' + 3)
    {c : Chunk} {v : Option Block}
    (h : dget c.blocks (x, w.get_terrain_height sinf cosf x z, z) = v) :
    dget (generate_column sinf cosf w rng c x' z').blocks
      (x, w.get_terrain_height sinf cosf x z, z) = v := by
  have hH1 := height_ge_one sinf cosf w x z
  unfold generate_column
  dsimp only
  set Hx := w.get_terrain_height sinf cosf x z with hHx
  set H' := w.get_terrain_height sinf cosf x' z' with hH'
  have hcol : ∀ y₀ : ℤ, ((x', y₀, z') : ℤ × ℤ × ℤ) ≠ (x, Hx, z) := by
    intro y₀ he
    simp only [Prod.mk.injEq] at he
    exact hne ⟨he.1, he.2.2⟩
  have hfill : ∀ (c' : Chunk),
      dget c'.blocks (x, Hx, z) = v →
      dget ((List.range (min (H' + 1) 256).toNat).foldl
        (fun c'' y => c''.set_block x' (y : ℤ) z' (columnBlockType H' (y : ℤ)))
        c').blocks (x, Hx, z) = v := by
    intro c' hc'
    refine foldl_pres (fun (c'' : Chunk) => dget c''.blocks (x, Hx, z) = v)
      _ _ ?_ _ hc'
    intro b i _ hb
    rw [set_block_dget_other (Ne.symm (hcol (i : ℤ)))]
    exact hb
  have hplant : ∀ (c' : Chunk),
      dget c'.blocks (x, Hx, z) = v →
      dget (if H' > 0 ∧ rng.plantRoll x' z' = true then
        c'.set_block x' (H' + 1) z' (plantChoice (rng.plantPick x' z'))
      else c').blocks (x, Hx, z) = v := by
    intro c' hc'
    split_ifs
    · rw [set_block_dget_other (Ne.symm (hcol (H' + 1)))]
      exact hc'
    · exact hc'
  by_cases h1 : H' > 5 ∧ rng.treeRoll x' z' = true
  · rw [if_pos h1]
    refine generate_tree_surface_pres _ _ _ _ _ ?_ ?_ (hplant _ (hfill _ h))
    · intro i _
      exact hcol (H' + 1 + i)
    · intro dx dy dz e1 e2 e3 e4 e5 he
      simp only [Prod.mk.injEq] at he
      have hxd : |x - x'| ≤ 2 := abs_le.mpr ⟨by omega, by omega⟩
      have hzd : |z - z'| ≤ 2 := abs_le.mpr ⟨by omega, by omega⟩
      have := hl hxd hzd
      have hpick : (0 : ℤ) ≤ ((rng.treePick x' z' : ℕ) : ℤ) := by positivity
      omega
  · rw [if_neg h1]
    exact hplant _ (hfill _ h)

theorem surface_chunk (sinf cosf : ℚ → ℚ) (rng : Rng)
    (hs1 : ∀ a b : ℚ, |sinf a - sinf b| ≤ |a - b|) (hs2 : ∀ a : ℚ, |sinf a| ≤ 1)
    (hc1 : ∀ a b : ℚ, |cosf a - cosf b| ≤ |a - b|) (hc2 : ∀ a : ℚ, |cosf a| ≤ 1)
    (x z : ℤ) (hx0 : 0 ≤ x) (hx1 : x ≤ 31) (hz0 : 0 ≤ z) (hz1 : z ≤ 31) :
    dget (generate_chunk_blocks sinf cosf (World.init 42) rng 0 0).blocks
      (x, (World.init 42).get_terrain_height sinf cosf x z, z) =
    some (Block.mk GRASS x ((World.init 42).get_terrain_height sinf cosf x z) z) := by
  have hlip : ∀ x' z' : ℤ, |x - x'| ≤ 2 → |z - z'| ≤ 2 →
      (World.init 42).get_terrain_height sinf cosf x z ≤
        (World.init 42).get_terrain_height sinf cosf x' z' + 3 :=
    fun x' z' h1 h2 => height_lip sinf cosf hs1 hs2 hc1 hc2 42 x z x' z' h1 h2
  have hcolstep : ∀ (x'' z'' : ℤ) (b : Chunk),
      dget b.blocks (x, (World.init 42).get_terrain_height sinf cosf x z, z) =
        some (Block.mk GRASS x ((World.init 42).get_terrain_height sinf cosf x z) z) →
      dget (generate_column sinf cosf (World.init 42) rng b x'' z'').blocks
        (x, (World.init 42).get_terrain_height sinf cosf x z, z) =
      some (Block.mk GRASS x ((World.init 42).get_terrain_height sinf cosf x z) z) := by
    intro x'' z'' b hb
    by_cases hsame : x'' = x ∧ z'' = z
    · obtain ⟨rfl, rfl⟩ := hsame
      exact surface_column_attain sinf cosf (World.init 42) rng x'' z'' b
    · exact surface_column_pres sinf cosf (World.init 42) rng x'' z'' x z hsame
        (fun h1 h2 => hlip x'' z'' h1 h2) hb
  unfold generate_chunk_blocks
  dsimp only
  refine foldl_attain_inv (fun (c : Chunk) => c.p = 0 ∧ c.q = 0)
    (fun (c : Chunk) =>
      dget c.blocks (x, (World.init 42).get_terrain_height sinf cosf x z, z) =
      some (Block.mk GRASS x ((World.init 42).get_terrain_height sinf cosf x z) z))
    _ _ x ?_ ?_ ?_ ?_ (Chunk.init 0 0) ⟨rfl, rfl⟩
  · exact mem_intRange.mpr
      (by constructor <;>
        simp only [Chunk.min_x, Chunk.max_x, Chunk.init, CHUNK_SIZE] <;> omega)
  · intro b x'' _ hj
    obtain ⟨hp, hq⟩ := hj
    have := foldl_chunk_p
      (fun c z'' => generate_column sinf cosf (World.init 42) rng c x'' z'')
      (intRange b.min_z (b.max_z + 1))
      (fun c' z'' _ => generate_column_pq sinf cosf (World.init 42) rng x'' z'' c') b
    exact ⟨this.1.trans hp, this.2.trans hq⟩
  · intro b hj
    obtain ⟨hp, hq⟩ := hj
    have hmin : b.min_z = 0 := by
      unfold Chunk.min_z CHUNK_SIZE
      rw [hq]
      norm_num
    have hmax : b.max_z = 31 := by
      unfold Chunk.max_z CHUNK_SIZE
      rw [hq]
      norm_num
    rw [hmin, hmax]
    refine foldl_attain
      (fun (c : Chunk) =>
        dget c.blocks (x, (World.init 42).get_terrain_height sinf cosf x z, z) =
        some (Block.mk GRASS x ((World.init 42).get_terrain_height sinf cosf x z) z))
      _ _ z (mem_intRange.mpr (by omega)) ?_ ?_ b
    · intro b'
      exact surface_column_attain sinf cosf (World.init 42) rng x z b'
    · intro b' z'' _ hb'
      exact hcolstep x z'' b' hb'
  · intro b x'' _ hb
    refine foldl_pres
      (fun (c : Chunk) =>
        dget c.blocks (x, (World.init 42).get_terrain_height sinf cosf x z, z) =
        some (Block.mk GRASS x ((World.init 42).get_terrain_height sinf cosf x z) z))
      _ _ ?_ _ hb
    intro b' z'' _ hb'
    exact hcolstep x'' z'' b' hb'

set_option maxHeartbeats 800000 in
/-- C6: for `World(seed=42)` with chunk (0, 0) force-generated (the math
library abstracted by any 1-Lipschitz functions bounded by 1, which
`math.sin`/`math.cos` are, and the seeded `random` stream by an arbitrary
oracle): the chunk reports `generated = true` with a non-empty block mapping,
and at every column of the footprint `World.get_block` at the height given by
the trigonometric formula returns the grass material. -/
theorem claim_C6 (sinf cosf : ℚ → ℚ) (rng : Rng)
    (hs1 : ∀ a b : ℚ, |sinf a - sinf b| ≤ |a - b|) (hs2 : ∀ a : ℚ, |sinf a| ≤ 1)
    (hc1 : ∀ a b : ℚ, |cosf a - cosf b| ≤ |a - b|) (hc2 : ∀ a : ℚ, |cosf a| ≤ 1) :
    (∃ c, dget ((World.init 42).generate_chunk sinf cosf rng 0 0).chunks (0, 0) =
        some c ∧ c.generated = true ∧ c.blocks ≠ []) ∧
    (∀ x z : ℤ, 0 ≤ x → x ≤ 31 → 0 ≤ z → z ≤ 31 →
      (((World.init 42).generate_chunk sinf cosf rng 0 0).get_block x
        ((World.init 42).get_terrain_height sinf cosf x z) z).type = GRASS) := by
  have hdget : dget ((World.init 42).generate_chunk sinf cosf rng 0 0).chunks
      (0, 0) = some (generate_chunk_blocks sinf cosf (World.init 42) rng 0 0) := by
    unfold World.generate_chunk
    dsimp only
    rw [dget_dset, if_pos rfl]
  constructor
  · refine ⟨_, hdget, ?_, ?_⟩
    · unfold generate_chunk_blocks
      rfl
    · intro hemp
      have hs := surface_chunk sinf cosf rng hs1 hs2 hc1 hc2 0 0
        (by norm_num) (by norm_num) (by norm_num) (by norm_num)
      rw [hemp] at hs
      simp [dget] at hs
  · intro x z hx0 hx1 hz0 hz1
    have hchx : chunked ((x : ℤ) : ℚ) = 0 := (chunked_intCast_eq_iff x 0).mpr (by omega)
    have hchz : chunked ((z : ℤ) : ℚ) = 0 := (chunked_intCast_eq_iff z 0).mpr (by omega)
    unfold World.get_block World.get_chunk_for_position World.get_chunk
    rw [hchx, hchz, hdget]
    dsimp only
    unfold Chunk.get_block
    rw [surface_chunk sinf cosf rng hs1 hs2 hc1 hc2 x z hx0 hx1 hz0 hz1]
    rfl

/-- Witness for C6 with the constant-zero math functions (bounded and
1-Lipschitz) and the all-false oracle, checked at column (5, 7). -/
theorem claim_C6_witness :
    (∃ c, dget ((World.init 42).generate_chunk zf zf rng0 0 0).chunks (0, 0) =
        some c ∧ c.generated = true ∧ c.blocks ≠ []) ∧
    (((World.init 42).generate_chunk zf zf rng0 0 0).get_block 5
      ((World.init 42).get_terrain_height zf zf 5 7) 7).type = GRASS :=
  ⟨(claim_C6 zf zf rng0 (fun a b => by simp [zf]) (fun a => by simp [zf])
      (fun a b => by simp [zf]) (fun a => by simp [zf])).1,
    (claim_C6 zf zf rng0 (fun a b => by simp [zf]) (fun a => by simp [zf])
      (fun a b => by simp [zf]) (fun a => by simp [zf])).2 5 7
      (by norm_num) (by norm_num) (by norm_num) (by norm_num)⟩

end Craft
